/-
Verification of the metrics aggregation engine of go-libp4dlog
(src/metrics/metrics.go): a shallow embedding of the aggregation state,
the record/snapshot/reset operations, the historical boundary detector
and the event loop, with theorems settling the frozen claims.

Modelling conventions:
  * Go maps become association lists `List (String × α)` with Go map
    semantics: reads of missing keys yield the zero value, writes insert.
  * Go float64/float32 become ℚ (the claims do not depend on binary
    floating-point rounding), int64 becomes ℤ.
  * Go strings become Lean `String`; all indexing in the source is over
    bytes, but every code path indexed here constrains those bytes to
    ASCII, where byte and character indexing coincide.
  * `time.Time` values become ℤ nanoseconds since 0001-01-01 00:00:00 UTC
    (Go's zero time is 0); `time.Duration` becomes ℤ nanoseconds.
-/

import Mathlib

namespace GoMetrics

/-- Go-map read: first entry with the key, or the zero value. -/
def mget {α : Type} [Zero α] : List (String × α) → String → α
  | [], _ => 0
  | p :: ps, k => if p.1 = k then p.2 else mget ps k

/-- Go-map write: replace the first entry with the key, or append it. -/
def mset {α : Type} : List (String × α) → String → α → List (String × α)
  | [], k, v => [(k, v)]
  | p :: ps, k, v => if p.1 = k then (k, v) :: ps else p :: mset ps k v

/-- Go `m[k] += v` (inserts `v` when the key is absent). -/
def madd {α : Type} [Zero α] [Add α] (m : List (String × α)) (k : String) (v : α) :
    List (String × α) :=
  mset m k (mget m k + v)

/-- Go `for t := range m { m[t] = 0 }`: zero every existing entry. -/
def zeroMap {α : Type} [Zero α] (m : List (String × α)) : List (String × α) :=
  m.map (fun p => (p.1, (0 : α)))

/-- Go `_, ok := m[k]` membership test. -/
def hasKey {α : Type} (m : List (String × α)) (k : String) : Bool :=
  m.any (fun p => p.1 = k)

/-- Read of a nested Go map (missing outer key yields an empty map). -/
def dget {α : Type} (m : List (String × List (String × α))) (u : String) :
    List (String × α) :=
  match m with
  | [] => []
  | p :: ps => if p.1 = u then p.2 else dget ps u

/-- The key list of an association-list map. -/
def keysOf {α : Type} (m : List (String × α)) : List String :=
  m.map (fun p => p.1)

theorem mget_mset {α : Type} [Zero α] (m : List (String × α)) (k k' : String) (v : α) :
    mget (mset m k v) k' = if k = k' then v else mget m k' := by
  induction m with
  | nil => by_cases h : k = k' <;> simp [mset, mget, h]
  | cons p ps ih =>
    by_cases h : p.1 = k
    · by_cases h' : k = k' <;> simp [mset, mget, h, h', h ▸ h']
    · by_cases h' : p.1 = k'
      · have hne : ¬ k = k' := fun he => h (he ▸ h')
        simp only [mset, mget, if_neg h, if_pos h', if_neg hne]
      · simp [mset, mget, h, h', ih]

theorem mget_madd {α : Type} [Zero α] [AddZeroClass α]
    (m : List (String × α)) (k k' : String) (v : α) :
    mget (madd m k v) k' = if k = k' then mget m k' + v else mget m k' := by
  rw [madd, mget_mset]
  by_cases h : k = k' <;> simp [h]

theorem mem_keysOf_mset {α : Type} (m : List (String × α)) (k k' : String) (v : α) :
    k' ∈ keysOf (mset m k v) ↔ k' = k ∨ k' ∈ keysOf m := by
  induction m with
  | nil => simp [mset, keysOf]
  | cons p ps ih =>
    by_cases h : p.1 = k
    · simp only [mset, if_pos h, keysOf, List.map_cons, List.mem_cons]
      constructor
      · rintro (hh | hh)
        · exact Or.inl hh
        · exact Or.inr (Or.inr hh)
      · rintro (hh | hh | hh)
        · exact Or.inl hh
        · exact Or.inl (hh.trans h)
        · exact Or.inr hh
    · simp only [mset, if_neg h, keysOf, List.map_cons, List.mem_cons] at *
      rw [ih]
      tauto

theorem mem_keysOf_madd {α : Type} [Zero α] [Add α] (m : List (String × α))
    (k k' : String) (v : α) :
    k' ∈ keysOf (madd m k v) ↔ k' = k ∨ k' ∈ keysOf m :=
  mem_keysOf_mset m k k' _

theorem keysOf_zeroMap {α : Type} [Zero α] (m : List (String × α)) :
    keysOf (zeroMap m) = keysOf m := by
  simp [keysOf, zeroMap]

theorem mget_zeroMap {α : Type} [Zero α] (m : List (String × α)) (k : String) :
    mget (zeroMap m) k = 0 := by
  induction m with
  | nil => simp [zeroMap, mget]
  | cons p ps ih =>
    by_cases h : p.1 = k <;> simp [zeroMap, mget, h] <;> simpa [zeroMap] using ih

theorem hasKey_iff_mem_keys {α : Type} (m : List (String × α)) (k : String) :
    hasKey m k = true ↔ k ∈ keysOf m := by
  induction m with
  | nil => simp [hasKey, keysOf]
  | cons p ps ih =>
    simp only [hasKey, List.any_cons, keysOf, List.map_cons, List.mem_cons,
      Bool.or_eq_true, decide_eq_true_eq] at *
    rw [ih]
    constructor
    · rintro (h | h)
      · left; exact h.symm
      · right; exact h
    · rintro (h | h)
      · left; exact h.symm
      · right; exact h

theorem mget_of_not_mem_keys {α : Type} [Zero α] (m : List (String × α)) (k : String)
    (h : k ∉ keysOf m) : mget m k = 0 := by
  induction m with
  | nil => rfl
  | cons p ps ih =>
    simp only [keysOf, List.map_cons, List.mem_cons, not_or] at h
    have h1 : ¬ p.1 = k := fun he => h.1 he.symm
    simp only [mget, if_neg h1]
    exact ih (by simpa [keysOf] using h.2)

/-- Folding `mset · · 0` over a key list (the lock-map reset loop body). -/
def zeroFold {α : Type} [Zero α] (l : List String) (m : List (String × α)) :
    List (String × α) :=
  l.foldl (fun mm t => mset mm t 0) m

theorem mget_zeroFold_preserve {α : Type} [Zero α] (l : List String)
    (m : List (String × α)) (k : String) (h : mget m k = 0) :
    mget (zeroFold l m) k = 0 := by
  induction l generalizing m with
  | nil => exact h
  | cons t ts ih =>
    simp only [zeroFold, List.foldl_cons]
    refine ih _ ?_
    rw [mget_mset]
    split <;> simp [h]

theorem mget_zeroFold_mem {α : Type} [Zero α] (l : List String)
    (m : List (String × α)) (k : String) (h : k ∈ l) :
    mget (zeroFold l m) k = 0 := by
  induction l generalizing m with
  | nil => cases h
  | cons t ts ih =>
    simp only [zeroFold, List.foldl_cons]
    rcases List.mem_cons.mp h with rfl | h'
    · exact mget_zeroFold_preserve ts _ k (by rw [mget_mset]; simp)
    · exact ih _ h'

theorem mget_zeroFold_covers {α : Type} [Zero α] (l : List String)
    (m : List (String × α)) (k : String)
    (hcov : k ∈ keysOf m → k ∈ l) : mget (zeroFold l m) k = 0 := by
  by_cases h : k ∈ keysOf m
  · exact mget_zeroFold_mem l m k (hcov h)
  · exact mget_zeroFold_preserve l m k (mget_of_not_mem_keys m k h)

theorem mem_keysOf_zeroFold {α : Type} [Zero α] (l : List String)
    (m : List (String × α)) (k : String) :
    k ∈ keysOf (zeroFold l m) ↔ k ∈ l ∨ k ∈ keysOf m := by
  induction l generalizing m with
  | nil => simp [zeroFold]
  | cons t ts ih =>
    simp only [zeroFold, List.foldl_cons, List.mem_cons] at *
    rw [ih, mem_keysOf_mset]
    tauto

/-- Character-list slice `s[:n]` (the source only slices ASCII-checked data,
where Go's byte slicing and character slicing coincide). -/
def strTake (s : String) (n : Nat) : String :=
  String.mk (s.data.take n)

/-- Character-list slice `s[n:]`. -/
def strDrop (s : String) (n : Nat) : String :=
  String.mk (s.data.drop n)

/-- Lexicographic order on character lists: Go's `strings.Compare(a, b) < 0`
(byte order and code-point order agree on UTF-8). -/
def listLt : List Char → List Char → Bool
  | [], [] => false
  | [], _ :: _ => true
  | _ :: _, [] => false
  | a :: as, b :: bs =>
    if a.toNat < b.toNat then true
    else if b.toNat < a.toNat then false
    else listLt as bs

/-- Go `strings.Compare(a, b) > 0`. -/
def strGt (a b : String) : Bool :=
  listLt b.data a.data

theorem listLt_irrefl (l : List Char) : listLt l l = false := by
  induction l with
  | nil => rfl
  | cons a as ih => simp [listLt, ih]

/-- Index of the first `'/'` in a character list, `-1` when absent. -/
def slashIdx : List Char → Int
  | [] => -1
  | c :: cs =>
    if c = '/' then 0
    else if slashIdx cs = -1 then -1 else slashIdx cs + 1

/-- Go `strings.Index(s, "/")` as a character index (`-1` when absent);
`'/'` is a one-byte character, so the byte index and character index of its
first occurrence agree. -/
def goIndexSlash (s : String) : Int :=
  slashIdx s.data

/-- The character class of `NotLabelValueRE`'s complement: the allow-list
`[a-zA-Z0-9_/+:@{}&%<>*\\.,()\[\]-]` from metrics.go line 29. -/
def labelCharOk (c : Char) : Bool :=
  (('a' ≤ c ∧ c ≤ 'z') ∨ ('A' ≤ c ∧ c ≤ 'Z') ∨ ('0' ≤ c ∧ c ≤ '9') ∨
    c = '_' ∨ c = '/' ∨ c = '+' ∨ c = ':' ∨ c = '@' ∨ c = '\x7b' ∨ c = '\x7d' ∨
    c = '&' ∨ c = '%' ∨ c = '<' ∨ c = '>' ∨ c = '*' ∨ c = '\\' ∨ c = '.' ∨
    c = ',' ∨ c = '(' ∨ c = ')' ∨ c = '[' ∨ c = ']' ∨ c = '-')

/-- `NotLabelValueRE.ReplaceAllString(s, "_")`: every character outside the
allow-list becomes an underscore. -/
def sanitizeLabel (s : String) : String :=
  String.mk (s.data.map (fun c => if labelCharOk c then c else '_'))

/-- Structural worker for `removeAllOcc`: the fuel starts at the list
length and every step consumes at least one character, so it never runs
out on the initial call. -/
def removeAllOccAux (pat : List Char) : ℕ → List Char → List Char
  | 0, _ => []
  | _ + 1, [] => []
  | n + 1, c :: rest =>
    if pat ≠ [] ∧ pat.isPrefixOf (c :: rest) then
      removeAllOccAux pat n (rest.drop (pat.length - 1))
    else
      c :: removeAllOccAux pat n rest

/-- Go `strings.ReplaceAll(s, pat, "")`: remove every (leftmost,
non-overlapping) occurrence of `pat`. -/
def removeAllOcc (pat s : List Char) : List Char :=
  removeAllOccAux pat s.length s

/-- Go `suffix.isSuffixOf s` helper (used only to state counterexamples). -/
def strHasSuffix (s suf : String) : Bool :=
  suf.data.isSuffixOf s.data

/-- Per-command table entry, with the fields metrics.go reads.
Modelled from the spec: the `p4dlog.Table` type lives in the parent package,
which is outside src/; §3 of the spec gives its shape (table name,
read/write wait/held durations in milliseconds, trigger lapse in seconds). -/
structure Table where
  tableName : String
  triggerLapse : ℚ
  totalReadWait : ℤ
  totalReadHeld : ℤ
  totalWriteWait : ℤ
  totalWriteHeld : ℤ
deriving DecidableEq

/-- A parsed command record.
Modelled from the spec: the `p4dlog.Command` type lives in the parent
package, outside src/; §3 of the spec gives its shape. Field names follow
the Go fields metrics.go reads. -/
structure Command where
  cmd : String
  user : String
  ip : String
  app : String
  completedLapse : ℚ
  uCpu : ℤ
  sCpu : ℤ
  running : ℤ
  netFilesAdded : ℤ
  netFilesUpdated : ℤ
  netFilesDeleted : ℤ
  netBytesAdded : ℤ
  netBytesUpdated : ℤ
  cmdError : Bool
  tables : List Table
deriving DecidableEq

/-- Engine configuration (metrics.go `Config`). `updateInterval` is in
nanoseconds (Go `time.Duration`). `userRegexMatch` abstracts the compiled
`OutputCmdsByUserRegex` match (the regex engine is Go's stdlib, outside this
repository; only emptiness of the regex string gates behaviour here). -/
structure Config where
  serverID : String
  sdpInstance : String
  updateInterval : ℤ
  outputCmdsByUser : Bool
  outputCmdsByUserRegex : String
  outputCmdsByIP : Bool
  caseSensitiveServer : Bool
  userRegexMatch : String → Bool

/-- The aggregation state of metrics.go `P4DMetrics`, plus the event-loop
bookkeeping of `ProcessEvents`. `cmdsPending`, `userCPU` and `systemCPU`
abstract the external reads `fp.CmdsPendingCount()` and `getCPUStats()`
(modelled from the spec: both belong to external collaborators). `fpOpen`
models whether the forwarding channel `fpLinesChan` is still open, and
`terminated` whether the event loop has returned. -/
structure P4DMetrics where
  config : Config
  historical : Bool
  needCmdChan : Bool
  timeLatestStartCmd : ℤ
  latestStartCmdBuf : String
  cmdRunning : ℤ
  cmdCounter : List (String × ℤ)
  cmdErrorCounter : List (String × ℤ)
  cmdCumulative : List (String × ℚ)
  cmduCPUCumulative : List (String × ℚ)
  cmdsCPUCumulative : List (String × ℚ)
  cmdByUserCounter : List (String × ℤ)
  cmdByUserCumulative : List (String × ℚ)
  cmdByIPCounter : List (String × ℤ)
  cmdByIPCumulative : List (String × ℚ)
  cmdByReplicaCounter : List (String × ℤ)
  cmdByReplicaCumulative : List (String × ℚ)
  cmdByProgramCounter : List (String × ℤ)
  cmdByProgramCumulative : List (String × ℚ)
  cmdByUserDetailCounter : List (String × List (String × ℤ))
  cmdByUserDetailCumulative : List (String × List (String × ℚ))
  totalReadWait : List (String × ℚ)
  totalReadHeld : List (String × ℚ)
  totalWriteWait : List (String × ℚ)
  totalWriteHeld : List (String × ℚ)
  totalTriggerLapse : List (String × ℚ)
  syncFilesAdded : ℤ
  syncFilesUpdated : ℤ
  syncFilesDeleted : ℤ
  syncBytesAdded : ℤ
  syncBytesUpdated : ℤ
  cmdsProcessed : ℤ
  linesRead : ℤ
  cmdsPending : ℤ
  userCPU : ℚ
  systemCPU : ℚ
  fpOpen : Bool
  terminated : Bool

/-- `NewP4DMetricsLogParser`: all aggregates start empty/zero. -/
def newP4DMetrics (config : Config) (historical : Bool) (needCmdChan : Bool)
    (cmdsPending : ℤ) (userCPU systemCPU : ℚ) : P4DMetrics :=
  { config := config
    historical := historical
    needCmdChan := needCmdChan
    timeLatestStartCmd := 0
    latestStartCmdBuf := ""
    cmdRunning := 0
    cmdCounter := []
    cmdErrorCounter := []
    cmdCumulative := []
    cmduCPUCumulative := []
    cmdsCPUCumulative := []
    cmdByUserCounter := []
    cmdByUserCumulative := []
    cmdByIPCounter := []
    cmdByIPCumulative := []
    cmdByReplicaCounter := []
    cmdByReplicaCumulative := []
    cmdByProgramCounter := []
    cmdByProgramCumulative := []
    cmdByUserDetailCounter := []
    cmdByUserDetailCumulative := []
    totalReadWait := []
    totalReadHeld := []
    totalWriteWait := []
    totalWriteHeld := []
    totalTriggerLapse := []
    syncFilesAdded := 0
    syncFilesUpdated := 0
    syncFilesDeleted := 0
    syncBytesAdded := 0
    syncBytesUpdated := 0
    cmdsProcessed := 0
    linesRead := 0
    cmdsPending := cmdsPending
    userCPU := userCPU
    systemCPU := systemCPU
    fpOpen := true
    terminated := false }

/-- The body of the table loop of `publishEvent` (metrics.go lines 541-551):
a table entry is a trigger entry only when its name is strictly longer than
`trigger_` and starts with it; trigger entries feed the trigger-lapse
aggregate under the stripped name, all other entries feed the four lock
aggregates (milliseconds divided by 1000). -/
def applyTable (st : P4DMetrics) (t : Table) : P4DMetrics :=
  if t.tableName.length > 8 ∧ strTake t.tableName 8 = "trigger_" then
    { st with
      totalTriggerLapse :=
        madd st.totalTriggerLapse (strDrop t.tableName 8) t.triggerLapse }
  else
    { st with
      totalReadHeld := madd st.totalReadHeld t.tableName ((t.totalReadHeld : ℚ) / 1000)
      totalReadWait := madd st.totalReadWait t.tableName ((t.totalReadWait : ℚ) / 1000)
      totalWriteHeld := madd st.totalWriteHeld t.tableName ((t.totalWriteHeld : ℚ) / 1000)
      totalWriteWait := madd st.totalWriteWait t.tableName ((t.totalWriteWait : ℚ) / 1000) }

/-- The user dimension key: lowercased unless the server is configured
case-sensitive (metrics.go lines 500-503). -/
def userDim (cfg : Config) (c : Command) : String :=
  if cfg.caseSensitiveServer then c.user
  else String.mk (c.user.data.map Char.toLower)

/-- The replica dimension key: the part of `cmd.IP` before the first `/`
when that slash exists at a positive index, else empty (metrics.go lines
520-527). -/
def replicaDim (c : Command) : String :=
  if 0 < goIndexSlash c.ip then strTake c.ip (goIndexSlash c.ip).toNat else ""

/-- The IP dimension key: the part of `cmd.IP` after the first `/` when
that slash exists at a positive index, else the whole value. -/
def ipDim (c : Command) : String :=
  if 0 < goIndexSlash c.ip then strDrop c.ip ((goIndexSlash c.ip).toNat + 1) else c.ip

/-- The program dimension key: every occurrence of `" (brokered)"` removed,
then the label sanitizer applied (metrics.go lines 534-536). -/
def programDim (c : Command) : String :=
  sanitizeLabel (String.mk (removeAllOcc " (brokered)".data c.app.data))

/-- `publishEvent` (metrics.go lines 484-552), the Aggregator's `record()`.
The Go body is a sequence of writes to pairwise disjoint fields followed by
the table loop, so it is rendered as one record update (fields listed in
source write order) folded over the tables. -/
def publishEvent (st : P4DMetrics) (c : Command) : P4DMetrics :=
  let user := userDim st.config c
  let detC := if hasKey st.cmdByUserDetailCounter user then st.cmdByUserDetailCounter
    else mset st.cmdByUserDetailCounter user []
  let detQ := if hasKey st.cmdByUserDetailCounter user then st.cmdByUserDetailCumulative
    else mset st.cmdByUserDetailCumulative user []
  let st1 := { st with
    cmdCounter := madd st.cmdCounter c.cmd 1
    cmdCumulative := madd st.cmdCumulative c.cmd c.completedLapse
    cmduCPUCumulative := madd st.cmduCPUCumulative c.cmd ((c.uCpu : ℚ) / 1000)
    cmdsCPUCumulative := madd st.cmdsCPUCumulative c.cmd ((c.sCpu : ℚ) / 1000)
    cmdErrorCounter := if c.cmdError then madd st.cmdErrorCounter c.cmd 1
      else st.cmdErrorCounter
    cmdRunning := c.running
    syncFilesAdded := st.syncFilesAdded + c.netFilesAdded
    syncFilesUpdated := st.syncFilesUpdated + c.netFilesUpdated
    syncFilesDeleted := st.syncFilesDeleted + c.netFilesDeleted
    syncBytesAdded := st.syncBytesAdded + c.netBytesAdded
    syncBytesUpdated := st.syncBytesUpdated + c.netBytesUpdated
    cmdByUserCounter := madd st.cmdByUserCounter user 1
    cmdByUserCumulative := madd st.cmdByUserCumulative user c.completedLapse
    cmdByUserDetailCounter :=
      if st.config.outputCmdsByUserRegex ≠ "" ∧ st.config.userRegexMatch user then
        mset detC user (madd (dget detC user) c.cmd 1)
      else st.cmdByUserDetailCounter
    cmdByUserDetailCumulative :=
      if st.config.outputCmdsByUserRegex ≠ "" ∧ st.config.userRegexMatch user then
        mset detQ user (madd (dget detQ user) c.cmd c.completedLapse)
      else st.cmdByUserDetailCumulative
    cmdByIPCounter := madd st.cmdByIPCounter (ipDim c) 1
    cmdByIPCumulative := madd st.cmdByIPCumulative (ipDim c) c.completedLapse
    cmdByReplicaCounter := if replicaDim c ≠ "" then
        madd st.cmdByReplicaCounter (replicaDim c) 1
      else st.cmdByReplicaCounter
    cmdByReplicaCumulative := if replicaDim c ≠ "" then
        madd st.cmdByReplicaCumulative (replicaDim c) c.completedLapse
      else st.cmdByReplicaCumulative
    cmdByProgramCounter := madd st.cmdByProgramCounter (programDim c) 1
    cmdByProgramCumulative :=
      madd st.cmdByProgramCumulative (programDim c) c.completedLapse }
  c.tables.foldl applyTable st1

/-- The lock-map loop of `resetToZero` (metrics.go lines 417-422): it walks
the keys of `totalReadHeld` and writes zero into all four lock maps at each
of those keys. -/
def resetLockMaps (st : P4DMetrics) : P4DMetrics :=
  { st with
    totalReadHeld := zeroFold (keysOf st.totalReadHeld) st.totalReadHeld
    totalReadWait := zeroFold (keysOf st.totalReadHeld) st.totalReadWait
    totalWriteHeld := zeroFold (keysOf st.totalReadHeld) st.totalWriteHeld
    totalWriteWait := zeroFold (keysOf st.totalReadHeld) st.totalWriteWait }

/-- `resetToZero` (metrics.go lines 416-482). -/
def resetToZero (st : P4DMetrics) : P4DMetrics :=
  let st1 := resetLockMaps st
  { st1 with
    syncFilesAdded := 0
    syncFilesUpdated := 0
    syncFilesDeleted := 0
    syncBytesAdded := 0
    syncBytesUpdated := 0
    cmdRunning := 0
    linesRead := 0
    totalTriggerLapse := zeroMap st1.totalTriggerLapse
    cmdByProgramCounter := zeroMap st1.cmdByProgramCounter
    cmdByReplicaCounter := zeroMap st1.cmdByReplicaCounter
    cmdByUserDetailCounter :=
      st1.cmdByUserDetailCounter.map (fun p => (p.1, zeroMap p.2))
    cmdByIPCounter := zeroMap st1.cmdByIPCounter
    cmdByUserCounter := zeroMap st1.cmdByUserCounter
    cmdErrorCounter := zeroMap st1.cmdErrorCounter
    cmdCounter := zeroMap st1.cmdCounter }

/-- ASCII digit test (`line[i] >= '0' && line[i] <= '9'`). -/
def isDigitCh (c : Char) : Bool :=
  '0' ≤ c ∧ c ≤ '9'

/-- Numeric value of an ASCII digit. -/
def digitVal (c : Char) : ℕ :=
  c.toNat - 48

/-- The fast fixed-offset scan of `historicalUpdateRequired` (metrics.go
lines 563-577): at least 20 characters, tab then `YYYY/MM/DD HH:MM:SS`
with the separators and digit positions checked byte-by-byte. -/
def timestampLineOk (line : String) : Bool :=
  let cs := line.data
  if cs.length < 20 then false
  else if ¬ (cs.getD 0 ' ' = '\t' ∧ cs.getD 5 ' ' = '/' ∧ cs.getD 8 ' ' = '/' ∧
      cs.getD 11 ' ' = ' ' ∧ cs.getD 14 ' ' = ':' ∧ cs.getD 17 ' ' = ':') then false
  else
    [1, 2, 3, 4, 6, 7, 9, 10, 12, 13, 15, 16, 18, 19].all
      (fun i => isDigitCh (cs.getD i ' '))

/-- Proleptic-Gregorian leap year (Go `time`). -/
def isLeapYear (y : ℤ) : Bool :=
  y % 4 = 0 ∧ (y % 100 ≠ 0 ∨ y % 400 = 0)

/-- Day count of a month (Go `time` validates the parsed day against it). -/
def daysInMonth (y : ℤ) : ℕ → ℕ
  | 1 => 31
  | 2 => if isLeapYear y then 29 else 28
  | 3 => 31
  | 4 => 30
  | 5 => 31
  | 6 => 30
  | 7 => 31
  | 8 => 31
  | 9 => 30
  | 10 => 31
  | 11 => 30
  | 12 => 31
  | _ => 0

/-- Days in year `y` before month `mo`. -/
def daysBeforeMonth (y : ℤ) (mo : ℕ) : ℕ :=
  (List.range (mo - 1)).foldl (fun a i => a + daysInMonth y (i + 1)) 0

/-- Civil date and time to nanoseconds since 0001-01-01 00:00:00 UTC (the
zero `time.Time`), proleptic Gregorian as in Go's `time` package. -/
def civilToNs (y : ℤ) (mo d h mi s : ℕ) : ℤ :=
  let days : ℤ := 365 * (y - 1) + (y - 1).fdiv 4 - (y - 1).fdiv 100 +
    (y - 1).fdiv 400 + (daysBeforeMonth y mo : ℤ) + ((d : ℤ) - 1)
  (days * 86400 + (h : ℤ) * 3600 + (mi : ℤ) * 60 + (s : ℤ)) * 1000000000

/-- Go `time.Parse("2006/01/02 15:04:05", s)`, as nanoseconds since the zero
time; a parse error yields the zero time (0), exactly as the source ignores
the returned error. Go validates the component ranges (month, day-of-month,
hour, minute, second) and the separator characters with fixed two/four digit
widths. `time.Time.Sub` saturates at ±2^63-1 ns; the engine only compares
differences against thresholds far below that bound, where exact integer
subtraction agrees, so subtraction is modelled exactly. -/
def goTimeParse (s : String) : ℤ :=
  let cs := s.data
  if cs.length = 19 ∧
      (cs.getD 4 ' ' = '/' ∧ cs.getD 7 ' ' = '/' ∧ cs.getD 10 '_' = ' ' ∧
        cs.getD 13 ' ' = ':' ∧ cs.getD 16 ' ' = ':') ∧
      [0, 1, 2, 3, 5, 6, 8, 9, 11, 12, 14, 15, 17, 18].all
        (fun i => isDigitCh (cs.getD i ' ')) then
    let y : ℤ := (1000 * digitVal (cs.getD 0 ' ') + 100 * digitVal (cs.getD 1 ' ') +
      10 * digitVal (cs.getD 2 ' ') + digitVal (cs.getD 3 ' ') : ℕ)
    let mo := 10 * digitVal (cs.getD 5 ' ') + digitVal (cs.getD 6 ' ')
    let d := 10 * digitVal (cs.getD 8 ' ') + digitVal (cs.getD 9 ' ')
    let h := 10 * digitVal (cs.getD 11 ' ') + digitVal (cs.getD 12 ' ')
    let mi := 10 * digitVal (cs.getD 14 ' ') + digitVal (cs.getD 15 ' ')
    let ss := 10 * digitVal (cs.getD 17 ' ') + digitVal (cs.getD 18 ' ')
    if 1 ≤ mo ∧ mo ≤ 12 ∧ 1 ≤ d ∧ d ≤ daysInMonth y mo ∧ h ≤ 23 ∧ mi ≤ 59 ∧ ss ≤ 59 then
      civilToNs y mo d h mi ss
    else 0
  else 0

/-- `historicalUpdateRequired` (metrics.go lines 558-600), the Historical
Boundary Detector. The returned triple is (state after the call, the
timestamp pushed on `timeChan` if any, the boolean result). `3*time.Second`
is 3000000000 ns. -/
def historicalUpdateRequired (st : P4DMetrics) (line : String) :
    P4DMetrics × Option ℤ × Bool :=
  if st.historical = false then (st, none, false)
  else if timestampLineOk line = false then (st, none, false)
  else if st.latestStartCmdBuf.length = 0 then
    ({ st with latestStartCmdBuf := strTake line 20,
               timeLatestStartCmd := goTimeParse (strTake (strDrop line 1) 19) },
      none, false)
  else if 0 < st.latestStartCmdBuf.length ∧ st.latestStartCmdBuf = strTake line 20 then
    (st, none, false)
  else if strGt (strTake line 20) st.latestStartCmdBuf = false then
    (st, none, false)
  else
    let dt := goTimeParse (strTake (strDrop line 1) 19)
    let sent : Option ℤ :=
      if 3000000000 ≤ dt - st.timeLatestStartCmd then some dt else none
    if st.config.updateInterval ≤ dt - st.timeLatestStartCmd then
      ({ st with timeLatestStartCmd := dt, latestStartCmdBuf := strTake line 20 },
        sent, true)
    else (st, sent, false)

/-- A metric label (metrics.go `labelStruct`). -/
structure labelStruct where
  name : String
  value : String
deriving DecidableEq

/-- The `fmt.Sprintf` verb a metric family's values are rendered with:
`%d`, `%0.3f` or `%.6f`. -/
inductive NumFmt where
  | int : NumFmt
  | f3 : NumFmt
  | f6 : NumFmt
deriving DecidableEq

/-- One metric family of the snapshot: name, HELP text, TYPE string, value
format, and the entries (extra labels beyond the fixed ones, value). -/
structure MetricFamily where
  mname : String
  help : String
  mtype : String
  fmt : NumFmt
  entries : List (List labelStruct × ℚ)
deriving DecidableEq

/-- Entries of an integer-valued per-dimension family. -/
def counterEntries (m : List (String × ℤ)) (lbl : String) :
    List (List labelStruct × ℚ) :=
  m.map (fun p => ([⟨lbl, p.1⟩], (p.2 : ℚ)))

/-- Entries of a seconds-valued per-dimension family. -/
def cumulEntries (m : List (String × ℚ)) (lbl : String) :
    List (List labelStruct × ℚ) :=
  m.map (fun p => ([⟨lbl, p.1⟩], p.2))

/-- The snapshot contents of `getCumulativeMetrics` (metrics.go lines
184-414), family by family in source order, with each family's `Sprintf`
verb. Map iteration order inside a family is Go-map nondeterministic; the
association-list order determinizes it, which no claim depends on. -/
def getFamilies (st : P4DMetrics) : List MetricFamily :=
  [ ⟨"p4_prom_log_lines_read", "A count of log lines read", "gauge",
      NumFmt.int, [([], (st.linesRead : ℚ))]⟩,
    ⟨"p4_prom_cmds_processed", "A count of all cmds processed", "counter",
      NumFmt.int, [([], (st.cmdsProcessed : ℚ))]⟩,
    ⟨"p4_prom_cmds_pending", "A count of all current cmds (not completed)", "gauge",
      NumFmt.int, [([], (st.cmdsPending : ℚ))]⟩,
    ⟨"p4_cmd_running", "The number of running commands at any one time", "gauge",
      NumFmt.int, [([], (st.cmdRunning : ℚ))]⟩,
    ⟨"p4_prom_cpu_user", "User CPU used by p4prometheus", "counter",
      NumFmt.f6, [([], st.userCPU)]⟩,
    ⟨"p4_prom_cpu_system", "System CPU used by p4prometheus", "counter",
      NumFmt.f6, [([], st.systemCPU)]⟩,
    ⟨"p4_sync_files_added", "The number of files added to workspaces by syncs", "gauge",
      NumFmt.int, [([], (st.syncFilesAdded : ℚ))]⟩,
    ⟨"p4_sync_files_updated", "The number of files updated in workspaces by syncs", "gauge",
      NumFmt.int, [([], (st.syncFilesUpdated : ℚ))]⟩,
    ⟨"p4_sync_files_deleted", "The number of files deleted in workspaces by syncs", "gauge",
      NumFmt.int, [([], (st.syncFilesDeleted : ℚ))]⟩,
    ⟨"p4_sync_bytes_added", "The number of bytes added to workspaces by syncs", "gauge",
      NumFmt.int, [([], (st.syncBytesAdded : ℚ))]⟩,
    ⟨"p4_sync_bytes_updated", "The number of bytes updated in workspaces by syncs", "gauge",
      NumFmt.int, [([], (st.syncBytesUpdated : ℚ))]⟩,
    ⟨"p4_cmd_counter", "A count of completed p4 cmds (by cmd)", "gauge",
      NumFmt.int, counterEntries st.cmdCounter "cmd"⟩,
    ⟨"p4_cmd_cumulative_seconds", "The total in seconds (by cmd)", "gauge",
      NumFmt.f3, cumulEntries st.cmdCumulative "cmd"⟩,
    ⟨"p4_cmd_cpu_user_cumulative_seconds", "The total in user CPU seconds (by cmd)", "gauge",
      NumFmt.f3, cumulEntries st.cmduCPUCumulative "cmd"⟩,
    ⟨"p4_cmd_cpu_system_cumulative_seconds", "The total in system CPU seconds (by cmd)",
      "gauge", NumFmt.f3, cumulEntries st.cmdsCPUCumulative "cmd"⟩,
    ⟨"p4_cmd_error_counter", "A count of cmd errors (by cmd)", "gauge",
      NumFmt.int, counterEntries st.cmdErrorCounter "cmd"⟩ ]
  ++ (if st.config.outputCmdsByUser then
      [ ⟨"p4_cmd_user_counter", "A count of completed p4 cmds (by user)", "gauge",
          NumFmt.int, counterEntries st.cmdByUserCounter "user"⟩,
        ⟨"p4_cmd_user_cumulative_seconds", "The total in seconds (by user)", "gauge",
          NumFmt.f3, cumulEntries st.cmdByUserCumulative "user"⟩ ]
    else [])
  ++ (if st.config.outputCmdsByIP then
      [ ⟨"p4_cmd_ip_counter", "A count of completed p4 cmds (by IP)", "gauge",
          NumFmt.int, counterEntries st.cmdByIPCounter "ip"⟩,
        ⟨"p4_cmd_ip_cumulative_seconds", "The total in seconds (by IP)", "gauge",
          NumFmt.f3, cumulEntries st.cmdByIPCumulative "ip"⟩ ]
    else [])
  ++ (if st.config.outputCmdsByUserRegex ≠ "" then
      [ ⟨"p4_cmd_user_detail_counter", "A count of completed p4 cmds (by user and cmd)",
          "gauge", NumFmt.int,
          st.cmdByUserDetailCounter.flatMap (fun p =>
            p.2.map (fun q => ([⟨"user", p.1⟩, ⟨"cmd", q.1⟩], (q.2 : ℚ))))⟩,
        ⟨"p4_cmd_user_detail_cumulative_seconds", "The total in seconds (by user and cmd)",
          "gauge", NumFmt.f3,
          st.cmdByUserDetailCumulative.flatMap (fun p =>
            p.2.map (fun q => ([⟨"user", p.1⟩, ⟨"cmd", q.1⟩], q.2)))⟩ ]
    else [])
  ++ [ ⟨"p4_cmd_replica_counter", "A count of completed p4 cmds (by broker/replica/proxy)",
        "gauge", NumFmt.int, counterEntries st.cmdByReplicaCounter "replica"⟩,
      ⟨"p4_cmd_replica_cumulative_seconds", "The total in seconds (by broker/replica/proxy)",
        "gauge", NumFmt.f3, cumulEntries st.cmdByReplicaCumulative "replica"⟩,
      ⟨"p4_cmd_program_counter", "A count of completed p4 cmds (by program)", "gauge",
        NumFmt.int, counterEntries st.cmdByProgramCounter "program"⟩,
      ⟨"p4_cmd_program_cumulative_seconds", "The total in seconds (by program)", "gauge",
        NumFmt.f3, cumulEntries st.cmdByProgramCumulative "program"⟩,
      ⟨"p4_total_read_wait_seconds",
        "The total waiting for read locks in seconds (by table)", "gauge",
        NumFmt.f3, cumulEntries st.totalReadWait "table"⟩,
      ⟨"p4_total_read_held_seconds", "The total read locks held in seconds (by table)",
        "gauge", NumFmt.f3, cumulEntries st.totalReadHeld "table"⟩,
      ⟨"p4_total_write_wait_seconds",
        "The total waiting for write locks in seconds (by table)", "gauge",
        NumFmt.f3, cumulEntries st.totalWriteWait "table"⟩,
      ⟨"p4_total_write_held_seconds", "The total write locks held in seconds (by table)",
        "gauge", NumFmt.f3, cumulEntries st.totalWriteHeld "table"⟩ ]
  ++ (if 0 < st.totalTriggerLapse.length then
      [ ⟨"p4_total_trigger_lapse_seconds",
          "The total lapse time for triggers in seconds (by trigger)", "gauge",
          NumFmt.f3, cumulEntries st.totalTriggerLapse "trigger"⟩ ]
    else [])

/-- Left-pad a decimal numeral with zeros to width `k`. -/
def natPad (k : ℕ) (n : ℕ) : String :=
  let s := toString n
  String.mk (List.replicate (k - s.length) '0') ++ s

/-- Fixed-point rendering of a nonnegative rational at `k` decimals. -/
def fmtFixedNonneg (k : ℕ) (q : ℚ) : String :=
  toString ((⌊q * (10 : ℚ) ^ k + 1 / 2⌋).toNat / 10 ^ k) ++ "." ++
    natPad k ((⌊q * (10 : ℚ) ^ k + 1 / 2⌋).toNat % 10 ^ k)

/-- `fmt.Sprintf("%0.<k>f", x)` on the exact rational value. -/
def fmtFixed (k : ℕ) (q : ℚ) : String :=
  if q < 0 then "-" ++ fmtFixedNonneg k (-q) else fmtFixedNonneg k q

/-- Render one metric value with its family's verb. -/
def fmtValue : NumFmt → ℚ → String
  | NumFmt.int, q => toString q.num
  | NumFmt.f3, q => fmtFixed 3 q
  | NumFmt.f6, q => fmtFixed 6 q

/-- `strings.Replace(buf, backslash, double backslash, -1)` from
`printMetric`. -/
def doubleBackslash (s : String) : String :=
  String.mk (s.data.foldr
    (fun c acc => if c = '\\' then '\\' :: '\\' :: acc else c :: acc) [])

/-- `formatLabels` (metrics.go lines 140-163): drop blank label values,
quote values in the live dialect, join with `,` inside braces (live) or
with `;` after the name (historical). -/
def formatLabels (historical : Bool) (mname : String)
    (labels : List labelStruct) : String :=
  let nonBlank := labels.filter (fun l => l.value ≠ "")
  let quoted := if historical then nonBlank
    else nonBlank.map (fun l => ⟨l.name, "\"" ++ l.value ++ "\""⟩)
  let vals := quoted.map (fun l => l.name ++ "=" ++ l.value)
  if historical then
    let labelStr := String.intercalate ";" vals
    if 0 < labelStr.length then mname ++ ";" ++ labelStr else mname
  else
    mname ++ "\x7b" ++ String.intercalate "," vals ++ "\x7d"

/-- Seconds since the Unix epoch of a zero-time-based nanosecond instant
(`time.Time.Unix()`); 62135596800 s separate 0001-01-01 from 1970-01-01. -/
def unixSeconds (ns : ℤ) : ℤ :=
  ns.fdiv 1000000000 - 62135596800

/-- `formatMetric` (metrics.go lines 165-171). -/
def formatMetric (historical : Bool) (unixTs : ℤ) (mname : String)
    (labels : List labelStruct) (metricVal : String) : String :=
  if historical then
    formatLabels true mname labels ++ " " ++ metricVal ++ " " ++ toString unixTs ++ "\n"
  else
    formatLabels false mname labels ++ " " ++ metricVal ++ "\n"

/-- `printMetricHeader` (metrics.go lines 132-136): HELP/TYPE lines, only
in live mode. -/
def printMetricHeader (historical : Bool) (name help mtype : String) : String :=
  if historical then ""
  else "# HELP " ++ name ++ " " ++ help ++ "\n# TYPE " ++ name ++ " " ++ mtype ++ "\n"

/-- Render one family: its header then its metric lines (each line
backslash-doubled by `printMetric`). -/
def renderFamily (historical : Bool) (unixTs : ℤ) (fixed : List labelStruct)
    (f : MetricFamily) : String :=
  printMetricHeader historical f.mname f.help f.mtype ++
  String.join (f.entries.map (fun e =>
    doubleBackslash (formatMetric historical unixTs f.mname (fixed ++ e.1)
      (fmtValue f.fmt e.2))))

/-- `getCumulativeMetrics` (metrics.go lines 184-414): the rendered
snapshot text. -/
def getCumulativeMetrics (st : P4DMetrics) : String :=
  let fixed : List labelStruct :=
    [⟨"serverid", st.config.serverID⟩, ⟨"sdpinst", st.config.sdpInstance⟩]
  String.join ((getFamilies st).map
    (renderFamily st.historical (unixSeconds st.timeLatestStartCmd) fixed))

/-- One readiness event of the `ProcessEvents` select loop (metrics.go lines
629-675): cancellation, a ticker tick, a parsed command arriving or that
channel closing, a raw line arriving or that channel closing. -/
inductive Event where
  | ctxDone : Event
  | tick : Event
  | cmdArrive : Command → Event
  | cmdClosed : Event
  | lineArrive : String → Event
  | linesClosed : Event
deriving DecidableEq

/-- One observable action of the loop: a snapshot sent on `metricsChan`, a
timestamp sent on `timeChan`, a command forwarded on `cmdsOutChan`, the
close of `fpLinesChan`, or the deferred closes of the output channels when
the goroutine returns. -/
inductive Output where
  | snap : String → Output
  | timeNotify : ℤ → Output
  | cmdOut : Command → Output
  | closeFp : Output
  | closeOutputs : Output
deriving DecidableEq

/-- One iteration of the `ProcessEvents` select loop on a ready event.
A terminated loop processes nothing. -/
def step (st : P4DMetrics) (ev : Event) : P4DMetrics × List Output :=
  if st.terminated then (st, [])
  else match ev with
  | Event.ctxDone => ({ st with terminated := true }, [Output.closeOutputs])
  | Event.tick =>
      if st.historical = false then
        (resetToZero st, [Output.snap (getCumulativeMetrics st)])
      else (st, [])
  | Event.cmdArrive c =>
      let st1 := { st with cmdsProcessed := st.cmdsProcessed + 1 }
      let st2 := publishEvent st1 c
      (st2, if st.needCmdChan then [Output.cmdOut c] else [])
  | Event.cmdClosed =>
      ({ st with terminated := true },
        [Output.snap (getCumulativeMetrics st), Output.closeOutputs])
  | Event.lineArrive l =>
      let st1 := { st with linesRead := st.linesRead + 1 }
      if st1.historical then
        let r := historicalUpdateRequired st1 l
        (r.1, (match r.2.1 with
                | some t => [Output.timeNotify t]
                | none => []) ++
          (if r.2.2 then [Output.snap (getCumulativeMetrics r.1)] else []))
      else (st1, [])
  | Event.linesClosed =>
      if st.fpOpen then ({ st with fpOpen := false }, [Output.closeFp])
      else (st, [])

/-- Run the loop over a sequence of ready events, collecting outputs. -/
def run (st : P4DMetrics) : List Event → P4DMetrics × List Output
  | [] => (st, [])
  | e :: es =>
    let r1 := step st e
    let r2 := run r1.1 es
    (r2.1, r1.2 ++ r2.2)

theorem dget_of_not_hasKey {α : Type} (m : List (String × List (String × α)))
    (u : String) (h : hasKey m u = false) : dget m u = [] := by
  induction m with
  | nil => rfl
  | cons p ps ih =>
    simp only [hasKey, List.any_cons, Bool.or_eq_false_iff,
      decide_eq_false_iff_not] at h
    simp only [dget, if_neg h.1]
    exact ih (by simp [hasKey, h.2])

theorem dget_append_single {α : Type} (m : List (String × List (String × α)))
    (u u' : String) (v : List (String × α)) (h : hasKey m u = false) :
    dget (m ++ [(u, v)]) u' = if u = u' then v else dget m u' := by
  induction m with
  | nil => simp [dget]
  | cons p ps ih =>
    simp only [hasKey, List.any_cons, Bool.or_eq_false_iff,
      decide_eq_false_iff_not] at h
    by_cases hp : p.1 = u'
    · have : ¬ u = u' := fun he => h.1 (he ▸ hp)
      simp [dget, hp, this]
    · simp only [List.cons_append, dget, if_neg hp]
      exact ih (by simp [hasKey, h.2])

theorem dget_insertBlank {α : Type} (m : List (String × List (String × α)))
    (u u' : String) :
    dget (if hasKey m u then m else m ++ [(u, [])]) u' = dget m u' := by
  by_cases h : hasKey m u = true
  · simp [h]
  · have hf : hasKey m u = false := by simpa using h
    rw [if_neg (by simp [hf]), dget_append_single m u u' [] hf]
    by_cases he : u = u'
    · rw [if_pos he]
      exact (he ▸ dget_of_not_hasKey m u hf).symm
    · rw [if_neg he]

theorem dget_mset {α : Type} (m : List (String × List (String × α)))
    (u u' : String) (v : List (String × α)) :
    dget (mset m u v) u' = if u = u' then v else dget m u' := by
  induction m with
  | nil => by_cases h : u = u' <;> simp [mset, dget, h]
  | cons p ps ih =>
    by_cases h : p.1 = u
    · by_cases h' : u = u' <;> simp [mset, dget, h, h', h ▸ h']
    · by_cases h' : p.1 = u'
      · have hne : ¬ u = u' := fun he => h (he ▸ h')
        simp only [mset, if_neg h, dget, if_pos h', if_neg hne]
      · simp [mset, dget, h, h', ih]

/-- Pointwise order between two maps (missing keys read as zero). -/
def mapLe {α : Type} [Zero α] [LE α] (m m' : List (String × α)) : Prop :=
  ∀ k, mget m k ≤ mget m' k

theorem mapLe_refl {α : Type} [Zero α] [Preorder α] (m : List (String × α)) :
    mapLe m m := fun _ => le_refl _

theorem mapLe_trans {α : Type} [Zero α] [Preorder α]
    {a b c : List (String × α)} (h1 : mapLe a b) (h2 : mapLe b c) : mapLe a c :=
  fun k => le_trans (h1 k) (h2 k)

theorem mapLe_madd {α : Type} [AddCommMonoid α] [PartialOrder α]
    [CovariantClass α α (· + ·) (· ≤ ·)]
    (m : List (String × α)) (k : String) (v : α) (hv : 0 ≤ v) :
    mapLe m (madd m k v) := by
  intro k'
  rw [mget_madd]
  split
  · exact le_add_of_nonneg_right hv
  · exact le_refl _

/-- The four per-table lock maps carry exactly the same key set. -/
def lockKeysAligned (st : P4DMetrics) : Prop :=
  (∀ k, k ∈ keysOf st.totalReadWait ↔ k ∈ keysOf st.totalReadHeld) ∧
  (∀ k, k ∈ keysOf st.totalWriteWait ↔ k ∈ keysOf st.totalReadHeld) ∧
  (∀ k, k ∈ keysOf st.totalWriteHeld ↔ k ∈ keysOf st.totalReadHeld)

/-- Every counter-class aggregate of §3 of the spec reads as zero: the
per-command and error counters, the per-user/IP/replica/program counters,
the per-(user,command) detail counters, the running-command gauge, the
lines-read count, the five sync counts, the four per-table lock totals and
the per-trigger lapse totals. -/
def countersZero (st : P4DMetrics) : Prop :=
  (∀ k, mget st.cmdCounter k = 0) ∧
  (∀ k, mget st.cmdErrorCounter k = 0) ∧
  (∀ k, mget st.cmdByUserCounter k = 0) ∧
  (∀ k, mget st.cmdByIPCounter k = 0) ∧
  (∀ k, mget st.cmdByReplicaCounter k = 0) ∧
  (∀ k, mget st.cmdByProgramCounter k = 0) ∧
  (∀ u k, mget (dget st.cmdByUserDetailCounter u) k = 0) ∧
  st.cmdRunning = 0 ∧ st.linesRead = 0 ∧
  st.syncFilesAdded = 0 ∧ st.syncFilesUpdated = 0 ∧ st.syncFilesDeleted = 0 ∧
  st.syncBytesAdded = 0 ∧ st.syncBytesUpdated = 0 ∧
  (∀ k, mget st.totalReadWait k = 0) ∧
  (∀ k, mget st.totalReadHeld k = 0) ∧
  (∀ k, mget st.totalWriteWait k = 0) ∧
  (∀ k, mget st.totalWriteHeld k = 0) ∧
  (∀ k, mget st.totalTriggerLapse k = 0)

/-- Every cumulative-seconds aggregate and the total-processed count of
`st'` dominates its value in `st` pointwise (never reset, monotone). -/
def cumulMonotone (st st' : P4DMetrics) : Prop :=
  mapLe st.cmdCumulative st'.cmdCumulative ∧
  mapLe st.cmduCPUCumulative st'.cmduCPUCumulative ∧
  mapLe st.cmdsCPUCumulative st'.cmdsCPUCumulative ∧
  mapLe st.cmdByUserCumulative st'.cmdByUserCumulative ∧
  mapLe st.cmdByIPCumulative st'.cmdByIPCumulative ∧
  mapLe st.cmdByReplicaCumulative st'.cmdByReplicaCumulative ∧
  mapLe st.cmdByProgramCumulative st'.cmdByProgramCumulative ∧
  (∀ u, mapLe (dget st.cmdByUserDetailCumulative u)
    (dget st'.cmdByUserDetailCumulative u)) ∧
  st.cmdsProcessed ≤ st'.cmdsProcessed

/-- Every additive counter-class aggregate of `st'` dominates its value in
`st` pointwise (the running-command gauge is excluded: it is assigned, not
accumulated). -/
def countersMonotone (st st' : P4DMetrics) : Prop :=
  mapLe st.cmdCounter st'.cmdCounter ∧
  mapLe st.cmdErrorCounter st'.cmdErrorCounter ∧
  mapLe st.cmdByUserCounter st'.cmdByUserCounter ∧
  mapLe st.cmdByIPCounter st'.cmdByIPCounter ∧
  mapLe st.cmdByReplicaCounter st'.cmdByReplicaCounter ∧
  mapLe st.cmdByProgramCounter st'.cmdByProgramCounter ∧
  (∀ u, mapLe (dget st.cmdByUserDetailCounter u)
    (dget st'.cmdByUserDetailCounter u)) ∧
  st.linesRead ≤ st'.linesRead ∧
  st.syncFilesAdded ≤ st'.syncFilesAdded ∧
  st.syncFilesUpdated ≤ st'.syncFilesUpdated ∧
  st.syncFilesDeleted ≤ st'.syncFilesDeleted ∧
  st.syncBytesAdded ≤ st'.syncBytesAdded ∧
  st.syncBytesUpdated ≤ st'.syncBytesUpdated ∧
  mapLe st.totalReadWait st'.totalReadWait ∧
  mapLe st.totalReadHeld st'.totalReadHeld ∧
  mapLe st.totalWriteWait st'.totalWriteWait ∧
  mapLe st.totalWriteHeld st'.totalWriteHeld ∧
  mapLe st.totalTriggerLapse st'.totalTriggerLapse

/-- All the numeric payload of a command record is nonnegative, as parsed
log data is (durations, CPU milliseconds, sync counts, lock millisecond
totals, trigger lapse). -/
def cmdNonneg (c : Command) : Prop :=
  0 ≤ c.completedLapse ∧ 0 ≤ c.uCpu ∧ 0 ≤ c.sCpu ∧
  0 ≤ c.netFilesAdded ∧ 0 ≤ c.netFilesUpdated ∧ 0 ≤ c.netFilesDeleted ∧
  0 ≤ c.netBytesAdded ∧ 0 ≤ c.netBytesUpdated ∧
  ∀ t ∈ c.tables, 0 ≤ t.triggerLapse ∧ 0 ≤ t.totalReadWait ∧
    0 ≤ t.totalReadHeld ∧ 0 ≤ t.totalWriteWait ∧ 0 ≤ t.totalWriteHeld

/-- Nonnegativity of an event's payload (trivial unless it carries a
command record). -/
def eventNonneg : Event → Prop
  | Event.cmdArrive c => cmdNonneg c
  | _ => True

theorem foldTables_shape (ts : List Table) (s : P4DMetrics) :
    ∃ a b c d e, ts.foldl applyTable s =
      { s with totalReadHeld := a, totalReadWait := b, totalWriteHeld := c,
               totalWriteWait := d, totalTriggerLapse := e } := by
  induction ts generalizing s with
  | nil =>
    exact ⟨s.totalReadHeld, s.totalReadWait, s.totalWriteHeld, s.totalWriteWait,
      s.totalTriggerLapse, rfl⟩
  | cons t ts ih =>
    obtain ⟨a, b, c, d, e, h⟩ := ih (applyTable s t)
    refine ⟨a, b, c, d, e, ?_⟩
    rw [List.foldl_cons, h]
    unfold applyTable
    split <;> rfl

theorem foldTables_cmdCounter (ts : List Table) (s : P4DMetrics) :
    (ts.foldl applyTable s).cmdCounter = s.cmdCounter := by
  obtain ⟨a, b, c, d, e, h⟩ := foldTables_shape ts s
  rw [h]

theorem foldTables_cmdErrorCounter (ts : List Table) (s : P4DMetrics) :
    (ts.foldl applyTable s).cmdErrorCounter = s.cmdErrorCounter := by
  obtain ⟨a, b, c, d, e, h⟩ := foldTables_shape ts s
  rw [h]

theorem foldTables_cmdCumulative (ts : List Table) (s : P4DMetrics) :
    (ts.foldl applyTable s).cmdCumulative = s.cmdCumulative := by
  obtain ⟨a, b, c, d, e, h⟩ := foldTables_shape ts s
  rw [h]

theorem foldTables_cmduCPU (ts : List Table) (s : P4DMetrics) :
    (ts.foldl applyTable s).cmduCPUCumulative = s.cmduCPUCumulative := by
  obtain ⟨a, b, c, d, e, h⟩ := foldTables_shape ts s
  rw [h]

theorem foldTables_cmdsCPU (ts : List Table) (s : P4DMetrics) :
    (ts.foldl applyTable s).cmdsCPUCumulative = s.cmdsCPUCumulative := by
  obtain ⟨a, b, c, d, e, h⟩ := foldTables_shape ts s
  rw [h]

theorem foldTables_userCounter (ts : List Table) (s : P4DMetrics) :
    (ts.foldl applyTable s).cmdByUserCounter = s.cmdByUserCounter := by
  obtain ⟨a, b, c, d, e, h⟩ := foldTables_shape ts s
  rw [h]

theorem foldTables_userCumulative (ts : List Table) (s : P4DMetrics) :
    (ts.foldl applyTable s).cmdByUserCumulative = s.cmdByUserCumulative := by
  obtain ⟨a, b, c, d, e, h⟩ := foldTables_shape ts s
  rw [h]

theorem foldTables_ipCounter (ts : List Table) (s : P4DMetrics) :
    (ts.foldl applyTable s).cmdByIPCounter = s.cmdByIPCounter := by
  obtain ⟨a, b, c, d, e, h⟩ := foldTables_shape ts s
  rw [h]

theorem foldTables_ipCumulative (ts : List Table) (s : P4DMetrics) :
    (ts.foldl applyTable s).cmdByIPCumulative = s.cmdByIPCumulative := by
  obtain ⟨a, b, c, d, e, h⟩ := foldTables_shape ts s
  rw [h]

theorem foldTables_replicaCounter (ts : List Table) (s : P4DMetrics) :
    (ts.foldl applyTable s).cmdByReplicaCounter = s.cmdByReplicaCounter := by
  obtain ⟨a, b, c, d, e, h⟩ := foldTables_shape ts s
  rw [h]

theorem foldTables_replicaCumulative (ts : List Table) (s : P4DMetrics) :
    (ts.foldl applyTable s).cmdByReplicaCumulative = s.cmdByReplicaCumulative := by
  obtain ⟨a, b, c, d, e, h⟩ := foldTables_shape ts s
  rw [h]

theorem foldTables_programCounter (ts : List Table) (s : P4DMetrics) :
    (ts.foldl applyTable s).cmdByProgramCounter = s.cmdByProgramCounter := by
  obtain ⟨a, b, c, d, e, h⟩ := foldTables_shape ts s
  rw [h]

theorem foldTables_programCumulative (ts : List Table) (s : P4DMetrics) :
    (ts.foldl applyTable s).cmdByProgramCumulative = s.cmdByProgramCumulative := by
  obtain ⟨a, b, c, d, e, h⟩ := foldTables_shape ts s
  rw [h]

theorem foldTables_detailCounter (ts : List Table) (s : P4DMetrics) :
    (ts.foldl applyTable s).cmdByUserDetailCounter = s.cmdByUserDetailCounter := by
  obtain ⟨a, b, c, d, e, h⟩ := foldTables_shape ts s
  rw [h]

theorem foldTables_detailCumulative (ts : List Table) (s : P4DMetrics) :
    (ts.foldl applyTable s).cmdByUserDetailCumulative =
      s.cmdByUserDetailCumulative := by
  obtain ⟨a, b, c, d, e, h⟩ := foldTables_shape ts s
  rw [h]

theorem foldTables_scalars (ts : List Table) (s : P4DMetrics) :
    (ts.foldl applyTable s).cmdRunning = s.cmdRunning ∧
    (ts.foldl applyTable s).linesRead = s.linesRead ∧
    (ts.foldl applyTable s).cmdsProcessed = s.cmdsProcessed ∧
    (ts.foldl applyTable s).syncFilesAdded = s.syncFilesAdded ∧
    (ts.foldl applyTable s).syncFilesUpdated = s.syncFilesUpdated ∧
    (ts.foldl applyTable s).syncFilesDeleted = s.syncFilesDeleted ∧
    (ts.foldl applyTable s).syncBytesAdded = s.syncBytesAdded ∧
    (ts.foldl applyTable s).syncBytesUpdated = s.syncBytesUpdated ∧
    (ts.foldl applyTable s).config = s.config ∧
    (ts.foldl applyTable s).historical = s.historical ∧
    (ts.foldl applyTable s).terminated = s.terminated ∧
    (ts.foldl applyTable s).fpOpen = s.fpOpen := by
  obtain ⟨a, b, c, d, e, h⟩ := foldTables_shape ts s
  rw [h]
  exact ⟨rfl, rfl, rfl, rfl, rfl, rfl, rfl, rfl, rfl, rfl, rfl, rfl⟩

theorem publishEvent_cmdCounter (st : P4DMetrics) (c : Command) :
    (publishEvent st c).cmdCounter = madd st.cmdCounter c.cmd 1 := by
  simp [publishEvent, foldTables_cmdCounter]

theorem publishEvent_cmdCumulative (st : P4DMetrics) (c : Command) :
    (publishEvent st c).cmdCumulative = madd st.cmdCumulative c.cmd c.completedLapse := by
  simp [publishEvent, foldTables_cmdCumulative]

theorem publishEvent_cmduCPU (st : P4DMetrics) (c : Command) :
    (publishEvent st c).cmduCPUCumulative =
      madd st.cmduCPUCumulative c.cmd ((c.uCpu : ℚ) / 1000) := by
  simp [publishEvent, foldTables_cmduCPU]

theorem publishEvent_cmdsCPU (st : P4DMetrics) (c : Command) :
    (publishEvent st c).cmdsCPUCumulative =
      madd st.cmdsCPUCumulative c.cmd ((c.sCpu : ℚ) / 1000) := by
  simp [publishEvent, foldTables_cmdsCPU]

theorem publishEvent_errorCounter (st : P4DMetrics) (c : Command) :
    (publishEvent st c).cmdErrorCounter =
      if c.cmdError then madd st.cmdErrorCounter c.cmd 1 else st.cmdErrorCounter := by
  simp [publishEvent, foldTables_cmdErrorCounter]

theorem publishEvent_userCounter (st : P4DMetrics) (c : Command) :
    (publishEvent st c).cmdByUserCounter =
      madd st.cmdByUserCounter (userDim st.config c) 1 := by
  simp [publishEvent, foldTables_userCounter]

theorem publishEvent_userCumulative (st : P4DMetrics) (c : Command) :
    (publishEvent st c).cmdByUserCumulative =
      madd st.cmdByUserCumulative (userDim st.config c) c.completedLapse := by
  simp [publishEvent, foldTables_userCumulative]

theorem publishEvent_ipCounter (st : P4DMetrics) (c : Command) :
    (publishEvent st c).cmdByIPCounter = madd st.cmdByIPCounter (ipDim c) 1 := by
  simp [publishEvent, foldTables_ipCounter]

theorem publishEvent_ipCumulative (st : P4DMetrics) (c : Command) :
    (publishEvent st c).cmdByIPCumulative =
      madd st.cmdByIPCumulative (ipDim c) c.completedLapse := by
  simp [publishEvent, foldTables_ipCumulative]

theorem publishEvent_replicaCounter (st : P4DMetrics) (c : Command) :
    (publishEvent st c).cmdByReplicaCounter =
      if replicaDim c ≠ "" then madd st.cmdByReplicaCounter (replicaDim c) 1
      else st.cmdByReplicaCounter := by
  simp [publishEvent, foldTables_replicaCounter]

theorem publishEvent_replicaCumulative (st : P4DMetrics) (c : Command) :
    (publishEvent st c).cmdByReplicaCumulative =
      if replicaDim c ≠ "" then
        madd st.cmdByReplicaCumulative (replicaDim c) c.completedLapse
      else st.cmdByReplicaCumulative := by
  simp [publishEvent, foldTables_replicaCumulative]

theorem publishEvent_programCounter (st : P4DMetrics) (c : Command) :
    (publishEvent st c).cmdByProgramCounter =
      madd st.cmdByProgramCounter (programDim c) 1 := by
  simp [publishEvent, foldTables_programCounter]

theorem publishEvent_programCumulative (st : P4DMetrics) (c : Command) :
    (publishEvent st c).cmdByProgramCumulative =
      madd st.cmdByProgramCumulative (programDim c) c.completedLapse := by
  simp [publishEvent, foldTables_programCumulative]

theorem publishEvent_detailCounter (st : P4DMetrics) (c : Command) :
    (publishEvent st c).cmdByUserDetailCounter =
      if st.config.outputCmdsByUserRegex ≠ "" ∧
          st.config.userRegexMatch (userDim st.config c) then
        mset (if hasKey st.cmdByUserDetailCounter (userDim st.config c) then
            st.cmdByUserDetailCounter
          else mset st.cmdByUserDetailCounter (userDim st.config c) [])
          (userDim st.config c)
          (madd (dget (if hasKey st.cmdByUserDetailCounter (userDim st.config c) then
              st.cmdByUserDetailCounter
            else mset st.cmdByUserDetailCounter (userDim st.config c) [])
            (userDim st.config c)) c.cmd 1)
      else st.cmdByUserDetailCounter := by
  simp [publishEvent, foldTables_detailCounter]

theorem publishEvent_detailCumulative (st : P4DMetrics) (c : Command) :
    (publishEvent st c).cmdByUserDetailCumulative =
      if st.config.outputCmdsByUserRegex ≠ "" ∧
          st.config.userRegexMatch (userDim st.config c) then
        mset (if hasKey st.cmdByUserDetailCounter (userDim st.config c) then
            st.cmdByUserDetailCumulative
          else mset st.cmdByUserDetailCumulative (userDim st.config c) [])
          (userDim st.config c)
          (madd (dget (if hasKey st.cmdByUserDetailCounter (userDim st.config c) then
              st.cmdByUserDetailCumulative
            else mset st.cmdByUserDetailCumulative (userDim st.config c) [])
            (userDim st.config c)) c.cmd c.completedLapse)
      else st.cmdByUserDetailCumulative := by
  simp [publishEvent, foldTables_detailCumulative]

theorem publishEvent_scalars (st : P4DMetrics) (c : Command) :
    (publishEvent st c).cmdRunning = c.running ∧
    (publishEvent st c).linesRead = st.linesRead ∧
    (publishEvent st c).cmdsProcessed = st.cmdsProcessed ∧
    (publishEvent st c).syncFilesAdded = st.syncFilesAdded + c.netFilesAdded ∧
    (publishEvent st c).syncFilesUpdated = st.syncFilesUpdated + c.netFilesUpdated ∧
    (publishEvent st c).syncFilesDeleted = st.syncFilesDeleted + c.netFilesDeleted ∧
    (publishEvent st c).syncBytesAdded = st.syncBytesAdded + c.netBytesAdded ∧
    (publishEvent st c).syncBytesUpdated = st.syncBytesUpdated + c.netBytesUpdated ∧
    (publishEvent st c).config = st.config ∧
    (publishEvent st c).historical = st.historical ∧
    (publishEvent st c).terminated = st.terminated ∧
    (publishEvent st c).fpOpen = st.fpOpen := by
  have h := foldTables_scalars c.tables
  simp [publishEvent]
  constructor
  · simpa using (h _).1
  constructor
  · simpa using (h _).2.1
  constructor
  · simpa using (h _).2.2.1
  constructor
  · simpa using (h _).2.2.2.1
  constructor
  · simpa using (h _).2.2.2.2.1
  constructor
  · simpa using (h _).2.2.2.2.2.1
  constructor
  · simpa using (h _).2.2.2.2.2.2.1
  constructor
  · simpa using (h _).2.2.2.2.2.2.2.1
  constructor
  · simpa using (h _).2.2.2.2.2.2.2.2.1
  constructor
  · simpa using (h _).2.2.2.2.2.2.2.2.2.1
  constructor
  · simpa using (h _).2.2.2.2.2.2.2.2.2.2.1
  · simpa using (h _).2.2.2.2.2.2.2.2.2.2.2

theorem slashIdx_neg_one_of_not_mem (l : List Char) (h : '/' ∉ l) :
    slashIdx l = -1 := by
  induction l with
  | nil => rfl
  | cons c cs ih =>
    simp only [List.mem_cons, not_or] at h
    have h1 : ¬ c = '/' := fun he => h.1 he.symm
    simp [slashIdx, h1, ih h.2]

theorem take_ne_nil_of_slashIdx (l : List Char) (i : ℕ)
    (h : slashIdx l = (i : ℤ)) (hp : 0 < i) : l.take i ≠ [] := by
  cases l with
  | nil =>
    simp only [slashIdx] at h
    omega
  | cons c cs =>
    cases i with
    | zero => omega
    | succ n => simp [List.take]

theorem replicaDim_of_idx (c : Command) (i : ℕ)
    (h : goIndexSlash c.ip = (i : ℤ)) (hp : 0 < i) :
    replicaDim c = strTake c.ip i ∧ replicaDim c ≠ "" := by
  have hgt : 0 < goIndexSlash c.ip := by rw [h]; exact_mod_cast hp
  have h1 : replicaDim c = strTake c.ip i := by
    rw [replicaDim, if_pos hgt, h]
    simp
  refine ⟨h1, ?_⟩
  rw [h1]
  intro he
  have hd : (strTake c.ip i).data = ("" : String).data := by rw [he]
  simp only [strTake] at hd
  exact take_ne_nil_of_slashIdx c.ip.data i h hp hd

/-- Shared example configuration for concrete witnesses. -/
def exConfig : Config :=
  ⟨"master", "1", 60000000000, true, "", true, false, fun _ => false⟩

/-- Shared example live-mode state for concrete witnesses. -/
def exSt : P4DMetrics :=
  newP4DMetrics exConfig false false 0 0 0

/-- Example command whose IP carries a replica prefix. -/
def exCmdRelay : Command :=
  ⟨"sync", "bob", "relay1/10.0.0.5", "p4v", 2, 100, 200, 3, 1, 2, 3, 4, 5, true, []⟩

/-- C4: `record()` splits the IP field on the first `/`. When the slash
sits at a positive index `i`, the replica counter and cumulative at the
prefix and the IP counter and cumulative at the suffix are all incremented;
when the IP contains no `/`, only the IP aggregates (at the whole value)
are incremented and the replica aggregates are untouched; the replica
aggregates change only when a nonempty prefix is present. -/
theorem claimC4_ipReplicaSplit (st : P4DMetrics) (c : Command) :
    (∀ i : ℕ, goIndexSlash c.ip = (i : ℤ) → 0 < i →
      mget (publishEvent st c).cmdByReplicaCounter (strTake c.ip i) =
        mget st.cmdByReplicaCounter (strTake c.ip i) + 1 ∧
      mget (publishEvent st c).cmdByReplicaCumulative (strTake c.ip i) =
        mget st.cmdByReplicaCumulative (strTake c.ip i) + c.completedLapse ∧
      mget (publishEvent st c).cmdByIPCounter (strDrop c.ip (i + 1)) =
        mget st.cmdByIPCounter (strDrop c.ip (i + 1)) + 1 ∧
      mget (publishEvent st c).cmdByIPCumulative (strDrop c.ip (i + 1)) =
        mget st.cmdByIPCumulative (strDrop c.ip (i + 1)) + c.completedLapse) ∧
    (goIndexSlash c.ip = -1 →
      mget (publishEvent st c).cmdByIPCounter c.ip =
        mget st.cmdByIPCounter c.ip + 1 ∧
      mget (publishEvent st c).cmdByIPCumulative c.ip =
        mget st.cmdByIPCumulative c.ip + c.completedLapse) ∧
    (¬ 0 < goIndexSlash c.ip →
      (publishEvent st c).cmdByReplicaCounter = st.cmdByReplicaCounter ∧
      (publishEvent st c).cmdByReplicaCumulative = st.cmdByReplicaCumulative) := by
  refine ⟨?_, ?_, ?_⟩
  · intro i hi hp
    obtain ⟨hrep, hne⟩ := replicaDim_of_idx c i hi hp
    have hip : ipDim c = strDrop c.ip (i + 1) := by
      rw [ipDim, if_pos (by rw [hi]; exact_mod_cast hp), hi]
      simp
    rw [publishEvent_replicaCounter, publishEvent_replicaCumulative,
      publishEvent_ipCounter, publishEvent_ipCumulative, if_pos hne, if_pos hne,
      hrep, hip]
    refine ⟨?_, ?_, ?_, ?_⟩ <;> rw [mget_madd] <;> simp
  · intro hi
    have hip : ipDim c = c.ip := by
      rw [ipDim, if_neg (by rw [hi]; decide)]
    rw [publishEvent_ipCounter, publishEvent_ipCumulative, hip]
    constructor <;> rw [mget_madd] <;> simp
  · intro hz
    have hrep : replicaDim c = "" := by rw [replicaDim, if_neg hz]
    rw [publishEvent_replicaCounter, publishEvent_replicaCumulative]
    rw [if_neg (by simp [hrep]), if_neg (by simp [hrep])]
    exact ⟨rfl, rfl⟩

/-- C4 witness: the split at the concrete IP `"relay1/10.0.0.5"`. -/
theorem claimC4_witness :
    mget (publishEvent exSt exCmdRelay).cmdByReplicaCounter
        (strTake "relay1/10.0.0.5" 6) =
      mget exSt.cmdByReplicaCounter (strTake "relay1/10.0.0.5" 6) + 1 ∧
    mget (publishEvent exSt exCmdRelay).cmdByReplicaCumulative
        (strTake "relay1/10.0.0.5" 6) =
      mget exSt.cmdByReplicaCumulative (strTake "relay1/10.0.0.5" 6) +
        exCmdRelay.completedLapse ∧
    mget (publishEvent exSt exCmdRelay).cmdByIPCounter
        (strDrop "relay1/10.0.0.5" 7) =
      mget exSt.cmdByIPCounter (strDrop "relay1/10.0.0.5" 7) + 1 ∧
    mget (publishEvent exSt exCmdRelay).cmdByIPCumulative
        (strDrop "relay1/10.0.0.5" 7) =
      mget exSt.cmdByIPCumulative (strDrop "relay1/10.0.0.5" 7) +
        exCmdRelay.completedLapse :=
  (claimC4_ipReplicaSplit exSt exCmdRelay).1 6 (by decide) (by decide)

/-- Example table entry named exactly `trigger_` (the boundary case). -/
def exTableTrig : Table :=
  ⟨"trigger_", 5, 1000, 2000, 3000, 4000⟩

/-- Example trigger table entry with a nonempty trigger name. -/
def exTableTrig2 : Table :=
  ⟨"trigger_mytrig", 5, 1000, 2000, 3000, 4000⟩

/-- C5 counterexample: the table name `"trigger_"` starts with `trigger_`
(its 8-character prefix is the whole of it), yet `record()` routes the
entry to the lock aggregates — `totalReadHeld` gains 2000/1000 = 2 at key
`"trigger_"` — and leaves the trigger-lapse aggregate empty, because the
source requires the name to be strictly longer than the prefix. -/
theorem claimC5_counterexample :
    strTake exTableTrig.tableName 8 = "trigger_" ∧
    (applyTable exSt exTableTrig).totalTriggerLapse = [] ∧
    mget (applyTable exSt exTableTrig).totalReadHeld "trigger_" = 2 ∧
    mget (applyTable exSt exTableTrig).totalReadWait "trigger_" = 1 := by
  have hcond : ¬ (8 < exTableTrig.tableName.length ∧
      strTake exTableTrig.tableName 8 = "trigger_") := by decide
  refine ⟨by decide, ?_, ?_, ?_⟩
  · rw [applyTable, if_neg hcond]
    rfl
  · rw [applyTable, if_neg hcond]
    show mget (madd exSt.totalReadHeld exTableTrig.tableName
      ((exTableTrig.totalReadHeld : ℚ) / 1000)) "trigger_" = 2
    rw [mget_madd, if_pos (by decide)]
    norm_num [exSt, newP4DMetrics, mget, exTableTrig]
  · rw [applyTable, if_neg hcond]
    show mget (madd exSt.totalReadWait exTableTrig.tableName
      ((exTableTrig.totalReadWait : ℚ) / 1000)) "trigger_" = 1
    rw [mget_madd, if_pos (by decide)]
    norm_num [exSt, newP4DMetrics, mget, exTableTrig]

/-- C5 (amended): for a table entry whose name is strictly longer than
`trigger_` and starts with it, `record()` adds the trigger-lapse time only
to the trigger-lapse aggregate keyed by the name with the prefix stripped
and leaves the four lock aggregates untouched; for every other entry
(including one named exactly `trigger_`) the four lock aggregates gain the
entry's milliseconds divided by 1000 and the trigger-lapse aggregate is
untouched. -/
theorem claimC5_tableDispatch (st : P4DMetrics) (t : Table) :
    (8 < t.tableName.length ∧ strTake t.tableName 8 = "trigger_" →
      mget (applyTable st t).totalTriggerLapse (strDrop t.tableName 8) =
        mget st.totalTriggerLapse (strDrop t.tableName 8) + t.triggerLapse ∧
      (applyTable st t).totalReadWait = st.totalReadWait ∧
      (applyTable st t).totalReadHeld = st.totalReadHeld ∧
      (applyTable st t).totalWriteWait = st.totalWriteWait ∧
      (applyTable st t).totalWriteHeld = st.totalWriteHeld ∧
      (∀ k, k ≠ strDrop t.tableName 8 →
        mget (applyTable st t).totalTriggerLapse k =
          mget st.totalTriggerLapse k)) ∧
    (¬ (8 < t.tableName.length ∧ strTake t.tableName 8 = "trigger_") →
      mget (applyTable st t).totalReadHeld t.tableName =
        mget st.totalReadHeld t.tableName + (t.totalReadHeld : ℚ) / 1000 ∧
      mget (applyTable st t).totalReadWait t.tableName =
        mget st.totalReadWait t.tableName + (t.totalReadWait : ℚ) / 1000 ∧
      mget (applyTable st t).totalWriteHeld t.tableName =
        mget st.totalWriteHeld t.tableName + (t.totalWriteHeld : ℚ) / 1000 ∧
      mget (applyTable st t).totalWriteWait t.tableName =
        mget st.totalWriteWait t.tableName + (t.totalWriteWait : ℚ) / 1000 ∧
      (applyTable st t).totalTriggerLapse = st.totalTriggerLapse) := by
  constructor
  · intro h
    rw [applyTable, if_pos (by exact_mod_cast h)]
    refine ⟨?_, rfl, rfl, rfl, rfl, ?_⟩
    · rw [mget_madd]
      simp
    · intro k hk
      rw [mget_madd]
      exact if_neg (fun he => hk he.symm)
  · intro h
    rw [applyTable, if_neg (by exact_mod_cast h)]
    refine ⟨?_, ?_, ?_, ?_, rfl⟩ <;> (rw [mget_madd]; simp)

/-- C5 witness: the trigger entry `"trigger_mytrig"` feeds only the
trigger-lapse aggregate at key `"mytrig"`. -/
theorem claimC5_witness :
    mget (applyTable exSt exTableTrig2).totalTriggerLapse "mytrig" =
      mget exSt.totalTriggerLapse "mytrig" + 5 ∧
    (applyTable exSt exTableTrig2).totalReadHeld = exSt.totalReadHeld ∧
    mget (applyTable exSt exTableTrig2).totalTriggerLapse "other" =
      mget exSt.totalTriggerLapse "other" :=
  have h := (claimC5_tableDispatch exSt exTableTrig2).1 (by decide)
  ⟨h.1, h.2.2.1, h.2.2.2.2.2 "other" (by decide)⟩

/-- Example command whose application name holds `" (brokered)"` in the
middle, not as a suffix. -/
def exCmdBrokered : Command :=
  ⟨"sync", "bob", "10.0.0.5", "a (brokered)b", 2, 100, 200, 3, 1, 2, 3, 4, 5,
    false, []⟩

/-- C6 counterexample: `"a (brokered)b"` does not end with `" (brokered)"`,
so under the claim the program key would be the sanitized unmodified name
`"a_(brokered)b"`; the code instead removes the inner occurrence and
increments key `"ab"`, leaving `"a_(brokered)b"` at zero. -/
theorem claimC6_counterexample :
    strHasSuffix "a (brokered)b" " (brokered)" = false ∧
    sanitizeLabel "a (brokered)b" = "a_(brokered)b" ∧
    mget (publishEvent exSt exCmdBrokered).cmdByProgramCounter "a_(brokered)b" = 0 ∧
    mget (publishEvent exSt exCmdBrokered).cmdByProgramCounter "ab" = 1 := by
  refine ⟨by decide, by decide, by decide, by decide⟩

/-- C6 (amended): the program dimension key is the application name with
every occurrence of the literal substring `" (brokered)"` removed (Go
`strings.ReplaceAll`, not only a trailing suffix) and every character
outside the allow-list replaced by `_`; the per-program counter and
cumulative are incremented exactly at that key. -/
theorem claimC6_programKey (st : P4DMetrics) (c : Command) :
    mget (publishEvent st c).cmdByProgramCounter (programDim c) =
      mget st.cmdByProgramCounter (programDim c) + 1 ∧
    mget (publishEvent st c).cmdByProgramCumulative (programDim c) =
      mget st.cmdByProgramCumulative (programDim c) + c.completedLapse ∧
    (∀ k, k ≠ programDim c →
      mget (publishEvent st c).cmdByProgramCounter k =
        mget st.cmdByProgramCounter k ∧
      mget (publishEvent st c).cmdByProgramCumulative k =
        mget st.cmdByProgramCumulative k) := by
  rw [publishEvent_programCounter, publishEvent_programCumulative]
  refine ⟨?_, ?_, ?_⟩
  · rw [mget_madd]; simp
  · rw [mget_madd]; simp
  · intro k hk
    constructor <;> (rw [mget_madd]; exact if_neg (fun he => hk he.symm))

/-- C6 witness: the concrete brokered-name command increments exactly the
key `"ab"`. -/
theorem claimC6_witness :
    mget (publishEvent exSt exCmdBrokered).cmdByProgramCounter
        (programDim exCmdBrokered) =
      mget exSt.cmdByProgramCounter (programDim exCmdBrokered) + 1 ∧
    mget (publishEvent exSt exCmdBrokered).cmdByProgramCounter "zzz" =
      mget exSt.cmdByProgramCounter "zzz" :=
  ⟨(claimC6_programKey exSt exCmdBrokered).1,
   ((claimC6_programKey exSt exCmdBrokered).2.2 "zzz" (by decide)).1⟩

/-- Example historical-mode configuration with a 1-minute update interval. -/
def exConfigH : Config :=
  ⟨"", "", 60000000000, false, "", false, false, fun _ => false⟩

/-- Fresh historical-mode engine state. -/
def exStH0 : P4DMetrics :=
  newP4DMetrics exConfigH true false 0 0 0

/-- First scenario line of §8 of the spec. -/
def lineA : String := "\t2024/01/01 00:00:00"

/-- Second scenario line: two seconds later. -/
def lineB : String := "\t2024/01/01 00:00:02"

/-- Third scenario line: five minutes later. -/
def lineC : String := "\t2024/01/01 00:05:00"

/-- Detector state and result after the first scenario line. -/
def detStep1 : P4DMetrics × Option ℤ × Bool :=
  historicalUpdateRequired exStH0 lineA

/-- Detector state and result after the second scenario line. -/
def detStep2 : P4DMetrics × Option ℤ × Bool :=
  historicalUpdateRequired detStep1.1 lineB

/-- Detector state and result after the third scenario line. -/
def detStep3 : P4DMetrics × Option ℤ × Bool :=
  historicalUpdateRequired detStep2.1 lineC

/-- C2: with a 1-minute interval, the three scenario lines yield no update,
no update, update: the first qualifying line only records its 20-character
prefix and parsed time (no update, no notification); the second is later
but within both the 3-second and interval thresholds (no update, no
notification, state unchanged); the third exceeds both, so the timestamp
notification fires and an update is required. A line qualifies only when it
is at least 20 characters long and matches the fixed-offset tab-timestamp
pattern: any non-qualifying line leaves the state untouched and reports no
update. -/
theorem claimC2_boundaryScenario :
    timestampLineOk lineA = true ∧
    detStep1.2 = (none, false) ∧
    detStep1.1.latestStartCmdBuf = lineA ∧
    detStep1.1.timeLatestStartCmd = goTimeParse "2024/01/01 00:00:00" ∧
    detStep2.1 = detStep1.1 ∧
    detStep2.2 = (none, false) ∧
    detStep3.2.2 = true ∧
    detStep3.2.1 = some (goTimeParse "2024/01/01 00:05:00") ∧
    detStep3.1.latestStartCmdBuf = lineC ∧
    (∀ (st : P4DMetrics) (line : String), timestampLineOk line = false →
      historicalUpdateRequired st line = (st, none, false)) := by
  refine ⟨by decide, by decide, by decide, by decide, by rfl, by decide,
    by decide, by decide, by decide, ?_⟩
  intro st line h
  rw [historicalUpdateRequired]
  by_cases hh : st.historical = false
  · rw [if_pos hh]
  · rw [if_neg hh, if_pos h]

/-- C2 witness: a short line does not qualify and has no effect. -/
theorem claimC2_witness :
    historicalUpdateRequired exStH0 "x" = (exStH0, none, false) :=
  claimC2_boundaryScenario.2.2.2.2.2.2.2.2.2 exStH0 "x" (by decide)

/-- C9: on a qualifying line whose 20-character prefix is lexicographically
greater than the stored prefix, with the parsed time at least 3 seconds but
strictly less than the configured update interval past the stored time, the
detector sends the new timestamp on the time-notification channel, reports
no update, and leaves the whole state (in particular the stored prefix and
stored time) unchanged. -/
theorem claimC9_notifyWithoutAdvance (st : P4DMetrics) (line : String)
    (hh : st.historical = true)
    (hq : timestampLineOk line = true)
    (hbuf : ¬ st.latestStartCmdBuf.length = 0)
    (hgt : strGt (strTake line 20) st.latestStartCmdBuf = true)
    (h3 : 3000000000 ≤
      goTimeParse (strTake (strDrop line 1) 19) - st.timeLatestStartCmd)
    (hlt : goTimeParse (strTake (strDrop line 1) 19) - st.timeLatestStartCmd <
      st.config.updateInterval) :
    historicalUpdateRequired st line =
      (st, some (goTimeParse (strTake (strDrop line 1) 19)), false) := by
  rw [historicalUpdateRequired, if_neg (by simp [hh]), if_neg (by simp [hq]),
    if_neg hbuf]
  rw [if_neg ?hne, if_neg (by simp [hgt])]
  case hne =>
    rintro ⟨-, he⟩
    rw [strGt, he, listLt_irrefl] at hgt
    exact Bool.false_ne_true hgt
  simp only [if_pos h3, if_neg (not_le.mpr hlt)]

/-- Detector state primed with the first scenario line (stored prefix and
time present). -/
def exDetSt : P4DMetrics := detStep1.1

/-- C9 witness: five seconds past the stored time with a 1-minute interval,
the notification fires and nothing advances. -/
theorem claimC9_witness :
    historicalUpdateRequired exDetSt "\t2024/01/01 00:00:05" =
      (exDetSt,
        some (goTimeParse (strTake (strDrop "\t2024/01/01 00:00:05" 1) 19)),
        false) :=
  claimC9_notifyWithoutAdvance exDetSt "\t2024/01/01 00:00:05" (by decide)
    (by decide) (by decide) (by decide) (by decide) (by decide)

/-- C7 counterexample: `p4_cmd_cpu_user_cumulative_seconds` is a
CPU-seconds metric, yet its family is rendered with the 3-decimal verb
(`%0.3f`, metrics.go line 268), not the 6-decimal one: the value 3/2 renders
as `"1.500"` under it and would render as `"1.500000"` at 6 decimals. -/
theorem claimC7_counterexample :
    ((getFamilies exSt).filter
        (fun f => f.mname = "p4_cmd_cpu_user_cumulative_seconds")).map
      (fun f => f.fmt) = [NumFmt.f3] ∧
    NumFmt.f3 ≠ NumFmt.f6 ∧
    fmtValue NumFmt.f3 (3 / 2) = "1.500" ∧
    fmtValue NumFmt.f6 (3 / 2) = "1.500000" := by
  refine ⟨by decide, by decide, ?_, ?_⟩
  · have h : ⌊(3 / 2 : ℚ) * (10 : ℚ) ^ (3 : ℕ) + 1 / 2⌋ = 1500 := by
      rw [Int.floor_eq_iff]
      norm_num
    rw [fmtValue, fmtFixed, if_neg (by norm_num), fmtFixedNonneg, h]
    decide
  · have h : ⌊(3 / 2 : ℚ) * (10 : ℚ) ^ (6 : ℕ) + 1 / 2⌋ = 1500000 := by
      rw [Int.floor_eq_iff]
      norm_num
    rw [fmtValue, fmtFixed, if_neg (by norm_num), fmtFixedNonneg, h]
    decide

/-- C7 (amended): in every snapshot, integer-valued families are rendered
with the plain decimal verb, every seconds-valued family — including the
per-command CPU-seconds cumulatives — with the 3-decimal verb, and only the
two process-level CPU metrics (`p4_prom_cpu_user`, `p4_prom_cpu_system`)
with the 6-decimal verb. -/
theorem claimC7_valueFormats (st : P4DMetrics) :
    (getFamilies st).map (fun f => (f.mname, f.fmt)) =
      [("p4_prom_log_lines_read", NumFmt.int),
       ("p4_prom_cmds_processed", NumFmt.int),
       ("p4_prom_cmds_pending", NumFmt.int),
       ("p4_cmd_running", NumFmt.int),
       ("p4_prom_cpu_user", NumFmt.f6),
       ("p4_prom_cpu_system", NumFmt.f6),
       ("p4_sync_files_added", NumFmt.int),
       ("p4_sync_files_updated", NumFmt.int),
       ("p4_sync_files_deleted", NumFmt.int),
       ("p4_sync_bytes_added", NumFmt.int),
       ("p4_sync_bytes_updated", NumFmt.int),
       ("p4_cmd_counter", NumFmt.int),
       ("p4_cmd_cumulative_seconds", NumFmt.f3),
       ("p4_cmd_cpu_user_cumulative_seconds", NumFmt.f3),
       ("p4_cmd_cpu_system_cumulative_seconds", NumFmt.f3),
       ("p4_cmd_error_counter", NumFmt.int)]
      ++ (if st.config.outputCmdsByUser then
            [("p4_cmd_user_counter", NumFmt.int),
             ("p4_cmd_user_cumulative_seconds", NumFmt.f3)]
          else [])
      ++ (if st.config.outputCmdsByIP then
            [("p4_cmd_ip_counter", NumFmt.int),
             ("p4_cmd_ip_cumulative_seconds", NumFmt.f3)]
          else [])
      ++ (if st.config.outputCmdsByUserRegex ≠ "" then
            [("p4_cmd_user_detail_counter", NumFmt.int),
             ("p4_cmd_user_detail_cumulative_seconds", NumFmt.f3)]
          else [])
      ++ [("p4_cmd_replica_counter", NumFmt.int),
          ("p4_cmd_replica_cumulative_seconds", NumFmt.f3),
          ("p4_cmd_program_counter", NumFmt.int),
          ("p4_cmd_program_cumulative_seconds", NumFmt.f3),
          ("p4_total_read_wait_seconds", NumFmt.f3),
          ("p4_total_read_held_seconds", NumFmt.f3),
          ("p4_total_write_wait_seconds", NumFmt.f3),
          ("p4_total_write_held_seconds", NumFmt.f3)]
      ++ (if 0 < st.totalTriggerLapse.length then
            [("p4_total_trigger_lapse_seconds", NumFmt.f3)]
          else []) := by
  unfold getFamilies
  split_ifs <;> rfl

/-- C8 counterexample: the snapshot carries five sync families (three file
counters and two byte counters), not four. -/
theorem claimC8_counterexample :
    ((getFamilies exSt).map (fun f => f.mname)).filter
        (fun n => strTake n 7 = "p4_sync") =
      ["p4_sync_files_added", "p4_sync_files_updated", "p4_sync_files_deleted",
       "p4_sync_bytes_added", "p4_sync_bytes_updated"] ∧
    (((getFamilies exSt).map (fun f => f.mname)).filter
        (fun n => strTake n 7 = "p4_sync")).length ≠ 4 := by
  constructor <;> decide

/-- C8 (amended): every snapshot renders its families in the fixed source
order — lines-read, commands-processed, commands-pending, commands-running,
CPU user and system, exactly FIVE sync counters, per-command
counters/cumulatives, error counters, the optional per-user / per-IP /
per-user-detail blocks each gated by its configuration flag, per-replica,
per-program, the four per-table lock aggregates, and a per-trigger block
only when at least one trigger has been observed. -/
theorem claimC8_familyOrder (st : P4DMetrics) :
    (getFamilies st).map (fun f => f.mname) =
      ["p4_prom_log_lines_read", "p4_prom_cmds_processed", "p4_prom_cmds_pending",
       "p4_cmd_running", "p4_prom_cpu_user", "p4_prom_cpu_system",
       "p4_sync_files_added", "p4_sync_files_updated", "p4_sync_files_deleted",
       "p4_sync_bytes_added", "p4_sync_bytes_updated",
       "p4_cmd_counter", "p4_cmd_cumulative_seconds",
       "p4_cmd_cpu_user_cumulative_seconds", "p4_cmd_cpu_system_cumulative_seconds",
       "p4_cmd_error_counter"]
      ++ (if st.config.outputCmdsByUser then
            ["p4_cmd_user_counter", "p4_cmd_user_cumulative_seconds"] else [])
      ++ (if st.config.outputCmdsByIP then
            ["p4_cmd_ip_counter", "p4_cmd_ip_cumulative_seconds"] else [])
      ++ (if st.config.outputCmdsByUserRegex ≠ "" then
            ["p4_cmd_user_detail_counter", "p4_cmd_user_detail_cumulative_seconds"]
          else [])
      ++ ["p4_cmd_replica_counter", "p4_cmd_replica_cumulative_seconds",
          "p4_cmd_program_counter", "p4_cmd_program_cumulative_seconds",
          "p4_total_read_wait_seconds", "p4_total_read_held_seconds",
          "p4_total_write_wait_seconds", "p4_total_write_held_seconds"]
      ++ (if 0 < st.totalTriggerLapse.length then
            ["p4_total_trigger_lapse_seconds"] else []) := by
  unfold getFamilies
  split_ifs <;> rfl

/-- Recognizer for the close of the forwarding queue. -/
def isCloseFp : Output → Bool
  | Output.closeFp => true
  | _ => false

theorem run_append (st : P4DMetrics) (a b : List Event) :
    run st (a ++ b) =
      ((run (run st a).1 b).1, (run st a).2 ++ (run (run st a).1 b).2) := by
  induction a generalizing st with
  | nil => simp [run]
  | cons e es ih =>
    simp only [List.cons_append, run, List.append_eq]
    rw [ih]
    simp [List.append_assoc]

theorem step_of_terminated (st : P4DMetrics) (ev : Event)
    (h : st.terminated = true) : step st ev = (st, []) := by
  rw [step.eq_def, if_pos h]

theorem run_of_terminated (st : P4DMetrics) (evs : List Event)
    (h : st.terminated = true) : run st evs = (st, []) := by
  induction evs with
  | nil => rfl
  | cons e es ih =>
    simp [run, step_of_terminated st e h, ih]

theorem resetToZero_frame (st : P4DMetrics) :
    (resetToZero st).terminated = st.terminated ∧
    (resetToZero st).fpOpen = st.fpOpen ∧
    (resetToZero st).historical = st.historical ∧
    (resetToZero st).config = st.config ∧
    (resetToZero st).needCmdChan = st.needCmdChan ∧
    (resetToZero st).cmdCumulative = st.cmdCumulative ∧
    (resetToZero st).cmduCPUCumulative = st.cmduCPUCumulative ∧
    (resetToZero st).cmdsCPUCumulative = st.cmdsCPUCumulative ∧
    (resetToZero st).cmdByUserCumulative = st.cmdByUserCumulative ∧
    (resetToZero st).cmdByIPCumulative = st.cmdByIPCumulative ∧
    (resetToZero st).cmdByReplicaCumulative = st.cmdByReplicaCumulative ∧
    (resetToZero st).cmdByProgramCumulative = st.cmdByProgramCumulative ∧
    (resetToZero st).cmdByUserDetailCumulative = st.cmdByUserDetailCumulative ∧
    (resetToZero st).cmdsProcessed = st.cmdsProcessed := by
  exact ⟨rfl, rfl, rfl, rfl, rfl, rfl, rfl, rfl, rfl, rfl, rfl, rfl, rfl, rfl⟩

theorem hur_shape (st : P4DMetrics) (l : String) :
    ∃ b t, (historicalUpdateRequired st l).1 =
      { st with latestStartCmdBuf := b, timeLatestStartCmd := t } := by
  simp only [historicalUpdateRequired]
  split_ifs <;> exact ⟨_, _, rfl⟩

theorem hur_fst_terminated (st : P4DMetrics) (l : String) :
    (historicalUpdateRequired st l).1.terminated = st.terminated := by
  obtain ⟨b, t, hb⟩ := hur_shape st l
  rw [hb]

theorem hur_fst_fpOpen (st : P4DMetrics) (l : String) :
    (historicalUpdateRequired st l).1.fpOpen = st.fpOpen := by
  obtain ⟨b, t, hb⟩ := hur_shape st l
  rw [hb]

theorem step_notTerminated (st : P4DMetrics) (ev : Event)
    (h1 : ev ≠ Event.cmdClosed) (h2 : ev ≠ Event.ctxDone)
    (ht : st.terminated = false) : (step st ev).1.terminated = false := by
  rw [step.eq_def, if_neg (by simp [ht])]
  cases ev with
  | ctxDone => exact absurd rfl h2
  | tick =>
    by_cases hh : st.historical = false
    · simp only [if_pos hh]
      exact (resetToZero_frame st).1.trans ht
    · simp only [if_neg hh]
      exact ht
  | cmdArrive c =>
    simpa [(publishEvent_scalars _ c).2.2.2.2.2.2.2.2.2.2.1] using ht
  | cmdClosed => exact absurd rfl h1
  | lineArrive l =>
    by_cases hh : st.historical = true
    · simp [hh, ht, hur_fst_terminated]
    · simp only [Bool.not_eq_true] at hh
      simp [hh, ht]
  | linesClosed =>
    by_cases hf : st.fpOpen = true
    · simp [hf, ht]
    · simp only [Bool.not_eq_true] at hf
      simp [hf, ht]

theorem run_notTerminated (evs : List Event) (st : P4DMetrics)
    (h1 : Event.cmdClosed ∉ evs) (h2 : Event.ctxDone ∉ evs)
    (ht : st.terminated = false) : (run st evs).1.terminated = false := by
  induction evs generalizing st with
  | nil => exact ht
  | cons e es ih =>
    simp only [List.mem_cons, not_or] at h1 h2
    simp only [run]
    exact ih _ h1.2 h2.2
      (step_notTerminated st e (fun he => h1.1 he.symm) (fun he => h2.1 he.symm) ht)

theorem step_fpOpen_of_false (st : P4DMetrics) (ev : Event)
    (h : st.fpOpen = false) : (step st ev).1.fpOpen = false := by
  rw [step.eq_def]
  split
  · exact h
  cases ev with
  | ctxDone => exact h
  | tick =>
    by_cases hh : st.historical = false
    · simp only [if_pos hh]
      exact (resetToZero_frame st).2.1.trans h
    · simp only [if_neg hh]; exact h
  | cmdArrive c => simpa [(publishEvent_scalars _ c).2.2.2.2.2.2.2.2.2.2.2] using h
  | cmdClosed => exact h
  | lineArrive l =>
    by_cases hh : st.historical = true
    · simp [hh, h, hur_fst_fpOpen]
    · simp only [Bool.not_eq_true] at hh
      simp [hh, h]
  | linesClosed =>
    by_cases hf : st.fpOpen = true
    · rw [hf] at h; exact absurd h (by simp)
    · simp only [Bool.not_eq_true] at hf
      simp [hf, h]

theorem countP_closeFp_timeNotify (o : Option ℤ) :
    List.countP isCloseFp
      (match o with | some t => [Output.timeNotify t] | none => []) = 0 := by
  cases o <;> simp [isCloseFp]

theorem countP_closeFp_snapIf (b : Bool) (s : String) :
    List.countP isCloseFp (if b = true then [Output.snap s] else []) = 0 := by
  cases b <;> simp [isCloseFp]

theorem step_closeFp_count (st : P4DMetrics) (ev : Event) :
    (List.countP isCloseFp (step st ev).2 +
      (if (step st ev).1.fpOpen = true then 1 else 0) : ℕ) =
      (if st.fpOpen = true then 1 else 0) := by
  rw [step.eq_def]
  split
  · simp
  cases ev with
  | ctxDone => simp [isCloseFp, List.countP_cons]
  | tick =>
    by_cases hh : st.historical = false
    · simp [if_pos hh, isCloseFp, List.countP_cons, (resetToZero_frame st).2.1]
    · simp [if_neg hh]
  | cmdArrive c =>
    by_cases hn : st.needCmdChan
    · simp [hn, isCloseFp, List.countP_cons,
        (publishEvent_scalars _ c).2.2.2.2.2.2.2.2.2.2.2]
    · simp [hn, (publishEvent_scalars _ c).2.2.2.2.2.2.2.2.2.2.2]
  | cmdClosed => simp [isCloseFp, List.countP_cons]
  | lineArrive l =>
    by_cases hh : st.historical = true
    · simp [hh, List.countP_append, countP_closeFp_timeNotify,
        countP_closeFp_snapIf, hur_fst_fpOpen]
    · simp only [Bool.not_eq_true] at hh
      simp [hh]
  | linesClosed =>
    by_cases hf : st.fpOpen = true
    · simp [hf, isCloseFp, List.countP_cons]
    · simp only [Bool.not_eq_true] at hf
      simp [hf]

theorem run_closeFp_count (evs : List Event) (st : P4DMetrics) :
    (List.countP isCloseFp (run st evs).2 +
      (if (run st evs).1.fpOpen = true then 1 else 0) : ℕ) =
      (if st.fpOpen = true then 1 else 0) := by
  induction evs generalizing st with
  | nil => simp [run]
  | cons e es ih =>
    simp only [run, List.countP_append]
    have h1 := step_closeFp_count st e
    have h2 := ih (step st e).1
    omega

theorem run_fpOpen_of_false (evs : List Event) (st : P4DMetrics)
    (h : st.fpOpen = false) : (run st evs).1.fpOpen = false := by
  induction evs generalizing st with
  | nil => exact h
  | cons e es ih =>
    simp only [run]
    exact ih _ (step_fpOpen_of_false st e h)

theorem run_fpClosed (evs : List Event) (st : P4DMetrics)
    (h1 : Event.cmdClosed ∉ evs) (h2 : Event.ctxDone ∉ evs)
    (ht : st.terminated = false) (hin : Event.linesClosed ∈ evs) :
    (run st evs).1.fpOpen = false := by
  induction evs generalizing st with
  | nil => cases hin
  | cons e es ih =>
    simp only [List.mem_cons, not_or] at h1 h2
    simp only [run]
    by_cases he : e = Event.linesClosed
    · subst he
      have hstep : (step st Event.linesClosed).1.fpOpen = false := by
        rw [step.eq_def, if_neg (by simp [ht])]
        by_cases hf : st.fpOpen = true
        · simp [hf]
        · simp only [Bool.not_eq_true] at hf
          simp [hf]
      exact run_fpOpen_of_false es _ hstep
    · rcases List.mem_cons.mp hin with he' | hin'
      · exact absurd he'.symm he
      · exact ih _ h1.2 h2.2
          (step_notTerminated st e (fun hh => h1.1 hh.symm) (fun hh => h2.1 hh.symm) ht) hin'

/-- C3: once the raw-line channel has closed (whereupon the forwarding
queue to the parser is closed exactly once over the whole trace) and the
parsed-command channel then closes, the loop emits exactly one final
snapshot followed by the closing of its output channels, terminates, and
processes nothing further — in either mode. -/
theorem claimC3_shutdownSnapshot (st : P4DMetrics) (evs1 evs2 : List Event)
    (hterm : st.terminated = false) (hfp : st.fpOpen = true)
    (h1 : Event.cmdClosed ∉ evs1) (h2 : Event.ctxDone ∉ evs1)
    (h3 : Event.linesClosed ∈ evs1) :
    (run st (evs1 ++ Event.cmdClosed :: evs2)).2 =
      (run st evs1).2 ++
        [Output.snap (getCumulativeMetrics (run st evs1).1),
         Output.closeOutputs] ∧
    (run st (evs1 ++ Event.cmdClosed :: evs2)).1.terminated = true ∧
    List.countP isCloseFp (run st (evs1 ++ Event.cmdClosed :: evs2)).2 = 1 := by
  have hT1 : (run st evs1).1.terminated = false :=
    run_notTerminated evs1 st h1 h2 hterm
  have hF1 : (run st evs1).1.fpOpen = false :=
    run_fpClosed evs1 st h1 h2 hterm h3
  have hstep : step (run st evs1).1 Event.cmdClosed =
      ({ (run st evs1).1 with terminated := true },
        [Output.snap (getCumulativeMetrics (run st evs1).1),
         Output.closeOutputs]) := by
    rw [step.eq_def, if_neg (by simp [hT1])]
  have hrest : run ({ (run st evs1).1 with terminated := true }) evs2 =
      ({ (run st evs1).1 with terminated := true }, []) :=
    run_of_terminated _ evs2 rfl
  have hmain : run st (evs1 ++ Event.cmdClosed :: evs2) =
      ((run ({ (run st evs1).1 with terminated := true }) evs2).1,
        (run st evs1).2 ++
          ([Output.snap (getCumulativeMetrics (run st evs1).1),
            Output.closeOutputs] ++
            (run ({ (run st evs1).1 with terminated := true }) evs2).2)) := by
    rw [run_append]
    simp only [run, hstep]
  refine ⟨?_, ?_, ?_⟩
  · rw [hmain, hrest]
    simp
  · rw [hmain, hrest]
  · rw [hmain, hrest]
    simp only [List.append_nil, List.countP_append]
    have hcount := run_closeFp_count evs1 st
    rw [hF1, hfp] at hcount
    norm_num at hcount
    simp [isCloseFp, List.countP_cons, hcount]

/-- C3 witness: the concrete trace lines-closed, command-channel-closed,
then a stray tick: one final snapshot, outputs closed, loop dead. -/
theorem claimC3_witness :
    (run exStH0 ([Event.linesClosed] ++ Event.cmdClosed :: [Event.tick])).2 =
      (run exStH0 [Event.linesClosed]).2 ++
        [Output.snap (getCumulativeMetrics (run exStH0 [Event.linesClosed]).1),
         Output.closeOutputs] ∧
    (run exStH0 ([Event.linesClosed] ++ Event.cmdClosed :: [Event.tick])).1.terminated =
      true ∧
    List.countP isCloseFp
      (run exStH0 ([Event.linesClosed] ++ Event.cmdClosed :: [Event.tick])).2 = 1 :=
  claimC3_shutdownSnapshot exStH0 [Event.linesClosed] [Event.tick] (by decide)
    (by decide) (by decide) (by decide) (by decide)

theorem lockKeysAligned_congr (s s' : P4DMetrics)
    (hw : s'.totalReadWait = s.totalReadWait)
    (hh : s'.totalReadHeld = s.totalReadHeld)
    (hww : s'.totalWriteWait = s.totalWriteWait)
    (hwh : s'.totalWriteHeld = s.totalWriteHeld)
    (h : lockKeysAligned s) : lockKeysAligned s' := by
  rw [lockKeysAligned, hw, hh, hww, hwh]
  exact h

theorem hur_fst_locks (st : P4DMetrics) (l : String) :
    (historicalUpdateRequired st l).1.totalReadWait = st.totalReadWait ∧
    (historicalUpdateRequired st l).1.totalReadHeld = st.totalReadHeld ∧
    (historicalUpdateRequired st l).1.totalWriteWait = st.totalWriteWait ∧
    (historicalUpdateRequired st l).1.totalWriteHeld = st.totalWriteHeld := by
  obtain ⟨b, t, hb⟩ := hur_shape st l
  rw [hb]
  exact ⟨rfl, rfl, rfl, rfl⟩

theorem applyTable_aligned (s : P4DMetrics) (t : Table)
    (h : lockKeysAligned s) : lockKeysAligned (applyTable s t) := by
  rw [applyTable]
  split
  · exact h
  · obtain ⟨h1, h2, h3⟩ := h
    refine ⟨fun k => ?_, fun k => ?_, fun k => ?_⟩ <;>
      simp only [mem_keysOf_madd]
    · rw [h1 k]
    · rw [h2 k]
    · rw [h3 k]

theorem foldTables_alignedAll (ts : List Table) (s : P4DMetrics)
    (h : lockKeysAligned s) : lockKeysAligned (ts.foldl applyTable s) := by
  induction ts generalizing s with
  | nil => exact h
  | cons t ts ih => exact ih _ (applyTable_aligned s t h)

theorem publishEvent_aligned (st : P4DMetrics) (c : Command)
    (h : lockKeysAligned st) : lockKeysAligned (publishEvent st c) :=
  foldTables_alignedAll c.tables _ h

theorem resetToZero_aligned (st : P4DMetrics) (h : lockKeysAligned st) :
    lockKeysAligned (resetToZero st) := by
  obtain ⟨h1, h2, h3⟩ := h
  refine ⟨fun k => ?_, fun k => ?_, fun k => ?_⟩
  · show k ∈ keysOf (zeroFold (keysOf st.totalReadHeld) st.totalReadWait) ↔
      k ∈ keysOf (zeroFold (keysOf st.totalReadHeld) st.totalReadHeld)
    rw [mem_keysOf_zeroFold, mem_keysOf_zeroFold, h1 k]
  · show k ∈ keysOf (zeroFold (keysOf st.totalReadHeld) st.totalWriteWait) ↔
      k ∈ keysOf (zeroFold (keysOf st.totalReadHeld) st.totalReadHeld)
    rw [mem_keysOf_zeroFold, mem_keysOf_zeroFold, h2 k]
  · show k ∈ keysOf (zeroFold (keysOf st.totalReadHeld) st.totalWriteHeld) ↔
      k ∈ keysOf (zeroFold (keysOf st.totalReadHeld) st.totalReadHeld)
    rw [mem_keysOf_zeroFold, mem_keysOf_zeroFold, h3 k]

theorem step_aligned (st : P4DMetrics) (ev : Event) (h : lockKeysAligned st) :
    lockKeysAligned (step st ev).1 := by
  rw [step.eq_def]
  split
  · exact h
  cases ev with
  | ctxDone => exact h
  | tick =>
    by_cases hh : st.historical = false
    · simp only [if_pos hh]
      exact resetToZero_aligned st h
    · simp only [if_neg hh]
      exact h
  | cmdArrive c => exact publishEvent_aligned _ c h
  | cmdClosed => exact h
  | lineArrive l =>
    dsimp only
    by_cases hh : st.historical = true
    · rw [if_pos hh]
      exact lockKeysAligned_congr st _
        ((hur_fst_locks _ l).1) ((hur_fst_locks _ l).2.1)
        ((hur_fst_locks _ l).2.2.1) ((hur_fst_locks _ l).2.2.2) h
    · rw [if_neg hh]
      exact h
  | linesClosed =>
    by_cases hf : st.fpOpen = true
    · simp only [if_pos hf]
      exact h
    · simp only [if_neg hf]
      exact h

theorem run_aligned (evs : List Event) (st : P4DMetrics)
    (h : lockKeysAligned st) : lockKeysAligned (run st evs).1 := by
  induction evs generalizing st with
  | nil => exact h
  | cons e es ih => exact ih _ (step_aligned st e h)

theorem newP4DMetrics_aligned (cfg : Config) (historical needCmd : Bool)
    (pend : ℤ) (ucpu scpu : ℚ) :
    lockKeysAligned (newP4DMetrics cfg historical needCmd pend ucpu scpu) := by
  refine ⟨fun k => ?_, fun k => ?_, fun k => ?_⟩ <;>
    simp [newP4DMetrics, keysOf]

theorem resetToZero_locks_zero (st : P4DMetrics) (h : lockKeysAligned st) :
    (∀ k, mget (resetToZero st).totalReadWait k = 0) ∧
    (∀ k, mget (resetToZero st).totalReadHeld k = 0) ∧
    (∀ k, mget (resetToZero st).totalWriteWait k = 0) ∧
    (∀ k, mget (resetToZero st).totalWriteHeld k = 0) := by
  obtain ⟨h1, h2, h3⟩ := h
  refine ⟨fun k => ?_, fun k => ?_, fun k => ?_, fun k => ?_⟩
  · show mget (zeroFold (keysOf st.totalReadHeld) st.totalReadWait) k = 0
    exact mget_zeroFold_covers _ _ _ (fun hk => (h1 k).mp hk)
  · show mget (zeroFold (keysOf st.totalReadHeld) st.totalReadHeld) k = 0
    exact mget_zeroFold_covers _ _ _ (fun hk => hk)
  · show mget (zeroFold (keysOf st.totalReadHeld) st.totalWriteWait) k = 0
    exact mget_zeroFold_covers _ _ _ (fun hk => (h2 k).mp hk)
  · show mget (zeroFold (keysOf st.totalReadHeld) st.totalWriteHeld) k = 0
    exact mget_zeroFold_covers _ _ _ (fun hk => (h3 k).mp hk)

/-- C10: in every state the engine can reach from construction — any event
sequence applied to a fresh engine — the four per-table lock maps carry
exactly the same key set, because `record()` inserts any non-trigger table
name into all four together (and the reset loop writes the read-held keys
into all four); consequently the live-mode reset, which iterates only the
read-held map's keys, leaves every entry of all four lock maps zero. -/
theorem claimC10_lockMapsSameKeys (cfg : Config) (historical needCmd : Bool)
    (pend : ℤ) (ucpu scpu : ℚ) (evs : List Event) :
    lockKeysAligned
      (run (newP4DMetrics cfg historical needCmd pend ucpu scpu) evs).1 ∧
    (∀ k,
      mget (resetToZero
        (run (newP4DMetrics cfg historical needCmd pend ucpu scpu) evs).1).totalReadWait
        k = 0 ∧
      mget (resetToZero
        (run (newP4DMetrics cfg historical needCmd pend ucpu scpu) evs).1).totalReadHeld
        k = 0 ∧
      mget (resetToZero
        (run (newP4DMetrics cfg historical needCmd pend ucpu scpu) evs).1).totalWriteWait
        k = 0 ∧
      mget (resetToZero
        (run (newP4DMetrics cfg historical needCmd pend ucpu scpu) evs).1).totalWriteHeld
        k = 0) := by
  have ha := run_aligned evs _
    (newP4DMetrics_aligned cfg historical needCmd pend ucpu scpu)
  have hz := resetToZero_locks_zero _ ha
  exact ⟨ha, fun k => ⟨hz.1 k, hz.2.1 k, hz.2.2.1 k, hz.2.2.2 k⟩⟩

/-- The two (user × command) detail maps carry the same key set, as
`record()` always creates their entries together. -/
def detailKeysAligned (st : P4DMetrics) : Prop :=
  ∀ u, hasKey st.cmdByUserDetailCounter u = true ↔
    hasKey st.cmdByUserDetailCumulative u = true

theorem dget_detC {α : Type} (m : List (String × List (String × α)))
    (u u' : String) :
    dget (if hasKey m u then m else mset m u []) u' = dget m u' := by
  by_cases h : hasKey m u = true
  · rw [if_pos h]
  · have hf : hasKey m u = false := by simpa using h
    rw [if_neg (by simp [hf]), dget_mset]
    split
    next he => exact (he ▸ dget_of_not_hasKey m u hf).symm
    next => rfl

theorem dget_detQ {α : Type} (dc : List (String × List (String × ℤ)))
    (m : List (String × List (String × α))) (u u' : String)
    (hal : hasKey dc u = false → hasKey m u = false) :
    dget (if hasKey dc u then m else mset m u []) u' = dget m u' := by
  by_cases h : hasKey dc u = true
  · rw [if_pos h]
  · have hdc : hasKey dc u = false := by simpa using h
    have hf : hasKey m u = false := hal hdc
    rw [if_neg (by simp [hdc]), dget_mset]
    split
    next he => exact (he ▸ dget_of_not_hasKey m u hf).symm
    next => rfl

theorem mget_dget_zeroAll {α : Type} [Zero α]
    (m : List (String × List (String × α))) (u k : String) :
    mget (dget (m.map (fun p => (p.1, zeroMap p.2))) u) k = 0 := by
  induction m with
  | nil => rfl
  | cons p ps ih =>
    simp only [List.map_cons, dget]
    split
    · exact mget_zeroMap _ _
    · exact ih

theorem countersZero_resetToZero (st : P4DMetrics) (hlock : lockKeysAligned st) :
    countersZero (resetToZero st) := by
  have hz := resetToZero_locks_zero st hlock
  refine ⟨fun k => mget_zeroMap _ _, fun k => mget_zeroMap _ _,
    fun k => mget_zeroMap _ _, fun k => mget_zeroMap _ _,
    fun k => mget_zeroMap _ _, fun k => mget_zeroMap _ _,
    fun u k => mget_dget_zeroAll _ u k,
    rfl, rfl, rfl, rfl, rfl, rfl, rfl,
    hz.1, hz.2.1, hz.2.2.1, hz.2.2.2, fun k => mget_zeroMap _ _⟩

theorem cumulMonotone_of_fields (s s' : P4DMetrics)
    (h1 : s'.cmdCumulative = s.cmdCumulative)
    (h2 : s'.cmduCPUCumulative = s.cmduCPUCumulative)
    (h3 : s'.cmdsCPUCumulative = s.cmdsCPUCumulative)
    (h4 : s'.cmdByUserCumulative = s.cmdByUserCumulative)
    (h5 : s'.cmdByIPCumulative = s.cmdByIPCumulative)
    (h6 : s'.cmdByReplicaCumulative = s.cmdByReplicaCumulative)
    (h7 : s'.cmdByProgramCumulative = s.cmdByProgramCumulative)
    (h8 : s'.cmdByUserDetailCumulative = s.cmdByUserDetailCumulative)
    (h9 : s'.cmdsProcessed = s.cmdsProcessed) :
    cumulMonotone s s' := by
  rw [cumulMonotone, h1, h2, h3, h4, h5, h6, h7, h8, h9]
  exact ⟨mapLe_refl _, mapLe_refl _, mapLe_refl _, mapLe_refl _, mapLe_refl _,
    mapLe_refl _, mapLe_refl _, fun u => mapLe_refl _, le_refl _⟩

theorem countersMonotone_of_fields (s s' : P4DMetrics)
    (h1 : s'.cmdCounter = s.cmdCounter)
    (h2 : s'.cmdErrorCounter = s.cmdErrorCounter)
    (h3 : s'.cmdByUserCounter = s.cmdByUserCounter)
    (h4 : s'.cmdByIPCounter = s.cmdByIPCounter)
    (h5 : s'.cmdByReplicaCounter = s.cmdByReplicaCounter)
    (h6 : s'.cmdByProgramCounter = s.cmdByProgramCounter)
    (h7 : s'.cmdByUserDetailCounter = s.cmdByUserDetailCounter)
    (h8 : s'.linesRead = s.linesRead)
    (h9 : s'.syncFilesAdded = s.syncFilesAdded)
    (h10 : s'.syncFilesUpdated = s.syncFilesUpdated)
    (h11 : s'.syncFilesDeleted = s.syncFilesDeleted)
    (h12 : s'.syncBytesAdded = s.syncBytesAdded)
    (h13 : s'.syncBytesUpdated = s.syncBytesUpdated)
    (h14 : s'.totalReadWait = s.totalReadWait)
    (h15 : s'.totalReadHeld = s.totalReadHeld)
    (h16 : s'.totalWriteWait = s.totalWriteWait)
    (h17 : s'.totalWriteHeld = s.totalWriteHeld)
    (h18 : s'.totalTriggerLapse = s.totalTriggerLapse) :
    countersMonotone s s' := by
  rw [countersMonotone, h1, h2, h3, h4, h5, h6, h7, h8, h9, h10, h11, h12,
    h13, h14, h15, h16, h17, h18]
  exact ⟨mapLe_refl _, mapLe_refl _, mapLe_refl _, mapLe_refl _, mapLe_refl _,
    mapLe_refl _, fun u => mapLe_refl _, le_refl _, le_refl _, le_refl _,
    le_refl _, le_refl _, le_refl _, mapLe_refl _, mapLe_refl _, mapLe_refl _,
    mapLe_refl _, mapLe_refl _⟩

theorem applyTable_locks_mono (s : P4DMetrics) (t : Table)
    (hn : 0 ≤ t.triggerLapse ∧ 0 ≤ t.totalReadWait ∧ 0 ≤ t.totalReadHeld ∧
      0 ≤ t.totalWriteWait ∧ 0 ≤ t.totalWriteHeld) :
    mapLe s.totalReadWait (applyTable s t).totalReadWait ∧
    mapLe s.totalReadHeld (applyTable s t).totalReadHeld ∧
    mapLe s.totalWriteWait (applyTable s t).totalWriteWait ∧
    mapLe s.totalWriteHeld (applyTable s t).totalWriteHeld ∧
    mapLe s.totalTriggerLapse (applyTable s t).totalTriggerLapse := by
  rw [applyTable]
  split
  · exact ⟨mapLe_refl _, mapLe_refl _, mapLe_refl _, mapLe_refl _,
      mapLe_madd _ _ _ hn.1⟩
  · refine ⟨mapLe_madd _ _ _ ?_, mapLe_madd _ _ _ ?_, mapLe_madd _ _ _ ?_,
      mapLe_madd _ _ _ ?_, mapLe_refl _⟩ <;>
      exact div_nonneg (by exact_mod_cast by tauto) (by norm_num)

theorem foldTables_locks_mono (ts : List Table) (s : P4DMetrics)
    (hn : ∀ t ∈ ts, 0 ≤ t.triggerLapse ∧ 0 ≤ t.totalReadWait ∧
      0 ≤ t.totalReadHeld ∧ 0 ≤ t.totalWriteWait ∧ 0 ≤ t.totalWriteHeld) :
    mapLe s.totalReadWait (ts.foldl applyTable s).totalReadWait ∧
    mapLe s.totalReadHeld (ts.foldl applyTable s).totalReadHeld ∧
    mapLe s.totalWriteWait (ts.foldl applyTable s).totalWriteWait ∧
    mapLe s.totalWriteHeld (ts.foldl applyTable s).totalWriteHeld ∧
    mapLe s.totalTriggerLapse (ts.foldl applyTable s).totalTriggerLapse := by
  induction ts generalizing s with
  | nil => exact ⟨mapLe_refl _, mapLe_refl _, mapLe_refl _, mapLe_refl _,
      mapLe_refl _⟩
  | cons t ts ih =>
    have h0 := applyTable_locks_mono s t (hn t (List.mem_cons_self t ts))
    have h1 := ih (applyTable s t) (fun t' ht' => hn t' (List.mem_cons_of_mem t ht'))
    exact ⟨mapLe_trans h0.1 h1.1, mapLe_trans h0.2.1 h1.2.1,
      mapLe_trans h0.2.2.1 h1.2.2.1, mapLe_trans h0.2.2.2.1 h1.2.2.2.1,
      mapLe_trans h0.2.2.2.2 h1.2.2.2.2⟩

theorem publishEvent_cumul_mono (st : P4DMetrics) (c : Command)
    (hc : cmdNonneg c) (hdet : detailKeysAligned st) :
    mapLe st.cmdCumulative (publishEvent st c).cmdCumulative ∧
    mapLe st.cmduCPUCumulative (publishEvent st c).cmduCPUCumulative ∧
    mapLe st.cmdsCPUCumulative (publishEvent st c).cmdsCPUCumulative ∧
    mapLe st.cmdByUserCumulative (publishEvent st c).cmdByUserCumulative ∧
    mapLe st.cmdByIPCumulative (publishEvent st c).cmdByIPCumulative ∧
    mapLe st.cmdByReplicaCumulative (publishEvent st c).cmdByReplicaCumulative ∧
    mapLe st.cmdByProgramCumulative (publishEvent st c).cmdByProgramCumulative ∧
    (∀ u, mapLe (dget st.cmdByUserDetailCumulative u)
      (dget (publishEvent st c).cmdByUserDetailCumulative u)) := by
  have hal : hasKey st.cmdByUserDetailCounter (userDim st.config c) = false →
      hasKey st.cmdByUserDetailCumulative (userDim st.config c) = false := by
    intro hf
    by_contra hq
    have hq' : hasKey st.cmdByUserDetailCumulative (userDim st.config c) = true := by
      simpa using hq
    rw [(hdet _).mpr hq'] at hf
    cases hf
  refine ⟨?_, ?_, ?_, ?_, ?_, ?_, ?_, ?_⟩
  · rw [publishEvent_cmdCumulative]
    exact mapLe_madd _ _ _ hc.1
  · rw [publishEvent_cmduCPU]
    exact mapLe_madd _ _ _ (div_nonneg (by exact_mod_cast hc.2.1) (by norm_num))
  · rw [publishEvent_cmdsCPU]
    exact mapLe_madd _ _ _ (div_nonneg (by exact_mod_cast hc.2.2.1) (by norm_num))
  · rw [publishEvent_userCumulative]
    exact mapLe_madd _ _ _ hc.1
  · rw [publishEvent_ipCumulative]
    exact mapLe_madd _ _ _ hc.1
  · rw [publishEvent_replicaCumulative]
    split
    · exact mapLe_madd _ _ _ hc.1
    · exact mapLe_refl _
  · rw [publishEvent_programCumulative]
    exact mapLe_madd _ _ _ hc.1
  · intro u
    rw [publishEvent_detailCumulative]
    split
    · rw [dget_mset]
      split
      next he =>
        subst he
        rw [dget_detQ _ _ _ _ hal]
        exact mapLe_madd _ _ _ hc.1
      next =>
        rw [dget_detQ _ _ _ _ hal]
        exact mapLe_refl _
    · exact mapLe_refl _

theorem publishEvent_counters_mono (st : P4DMetrics) (c : Command)
    (hc : cmdNonneg c) : countersMonotone st (publishEvent st c) := by
  refine ⟨?_, ?_, ?_, ?_, ?_, ?_, ?_, ?_, ?_, ?_, ?_, ?_, ?_, ?_, ?_, ?_, ?_, ?_⟩
  · rw [publishEvent_cmdCounter]
    exact mapLe_madd _ _ _ (by norm_num)
  · rw [publishEvent_errorCounter]
    split
    · exact mapLe_madd _ _ _ (by norm_num)
    · exact mapLe_refl _
  · rw [publishEvent_userCounter]
    exact mapLe_madd _ _ _ (by norm_num)
  · rw [publishEvent_ipCounter]
    exact mapLe_madd _ _ _ (by norm_num)
  · rw [publishEvent_replicaCounter]
    split
    · exact mapLe_madd _ _ _ (by norm_num)
    · exact mapLe_refl _
  · rw [publishEvent_programCounter]
    exact mapLe_madd _ _ _ (by norm_num)
  · intro u
    rw [publishEvent_detailCounter]
    split
    · rw [dget_mset]
      split
      next he =>
        subst he
        rw [dget_detC]
        exact mapLe_madd _ _ _ (by norm_num)
      next =>
        rw [dget_detC]
        exact mapLe_refl _
    · exact mapLe_refl _
  · exact le_of_eq ((publishEvent_scalars st c).2.1).symm
  · rw [(publishEvent_scalars st c).2.2.2.1]
    exact le_add_of_nonneg_right hc.2.2.2.1
  · rw [(publishEvent_scalars st c).2.2.2.2.1]
    exact le_add_of_nonneg_right hc.2.2.2.2.1
  · rw [(publishEvent_scalars st c).2.2.2.2.2.1]
    exact le_add_of_nonneg_right hc.2.2.2.2.2.1
  · rw [(publishEvent_scalars st c).2.2.2.2.2.2.1]
    exact le_add_of_nonneg_right hc.2.2.2.2.2.2.1
  · rw [(publishEvent_scalars st c).2.2.2.2.2.2.2.1]
    exact le_add_of_nonneg_right hc.2.2.2.2.2.2.2.1
  · exact (foldTables_locks_mono c.tables _
      (fun t ht => hc.2.2.2.2.2.2.2.2 t ht)).1
  · exact (foldTables_locks_mono c.tables _
      (fun t ht => hc.2.2.2.2.2.2.2.2 t ht)).2.1
  · exact (foldTables_locks_mono c.tables _
      (fun t ht => hc.2.2.2.2.2.2.2.2 t ht)).2.2.1
  · exact (foldTables_locks_mono c.tables _
      (fun t ht => hc.2.2.2.2.2.2.2.2 t ht)).2.2.2.1
  · exact (foldTables_locks_mono c.tables _
      (fun t ht => hc.2.2.2.2.2.2.2.2 t ht)).2.2.2.2

/-- C1: with the reachable-state invariants that the four lock maps and the
two detail maps carry consistent key sets, and a live loop: (i) in live mode
the state after a ticker flush has every counter-class aggregate (per-command
and error counters, per-user/IP/replica/program counters, (user,command)
detail counters, running-command gauge, lines-read count, the five sync
counts, the four per-table lock totals and the per-trigger lapse totals) at
zero; (ii) no engine operation ever resets a cumulative-seconds aggregate or
the total-processed count — they are pointwise monotone under any event with
nonnegative payload; (iii) in historical mode no additive aggregate is ever
reset: counters are pointwise monotone as well (the running-command gauge is
assigned from each record, not accumulated, so it is not a monotone
quantity). -/
theorem claimC1_resetClassification (st : P4DMetrics) (ev : Event)
    (hlock : lockKeysAligned st) (hdet : detailKeysAligned st)
    (hterm : st.terminated = false) (hnn : eventNonneg ev) :
    (st.historical = false → countersZero (step st Event.tick).1) ∧
    cumulMonotone st (step st ev).1 ∧
    (st.historical = true → countersMonotone st (step st ev).1) := by
  refine ⟨?_, ?_, ?_⟩
  · intro hh
    rw [step.eq_def, if_neg (by simp [hterm])]
    simp only [if_pos hh]
    exact countersZero_resetToZero st hlock
  · rw [step.eq_def, if_neg (by simp [hterm])]
    cases ev with
    | ctxDone =>
      exact cumulMonotone_of_fields st _ rfl rfl rfl rfl rfl rfl rfl rfl rfl
    | tick =>
      by_cases hh : st.historical = false
      · simp only [if_pos hh]
        exact cumulMonotone_of_fields st _
          (resetToZero_frame st).2.2.2.2.2.1
          (resetToZero_frame st).2.2.2.2.2.2.1
          (resetToZero_frame st).2.2.2.2.2.2.2.1
          (resetToZero_frame st).2.2.2.2.2.2.2.2.1
          (resetToZero_frame st).2.2.2.2.2.2.2.2.2.1
          (resetToZero_frame st).2.2.2.2.2.2.2.2.2.2.1
          (resetToZero_frame st).2.2.2.2.2.2.2.2.2.2.2.1
          (resetToZero_frame st).2.2.2.2.2.2.2.2.2.2.2.2.1
          (resetToZero_frame st).2.2.2.2.2.2.2.2.2.2.2.2.2
      · simp only [if_neg hh]
        exact cumulMonotone_of_fields st _ rfl rfl rfl rfl rfl rfl rfl rfl rfl
    | cmdArrive c =>
      have hmono := publishEvent_cumul_mono
        { st with cmdsProcessed := st.cmdsProcessed + 1 } c hnn hdet
      refine ⟨hmono.1, hmono.2.1, hmono.2.2.1, hmono.2.2.2.1, hmono.2.2.2.2.1,
        hmono.2.2.2.2.2.1, hmono.2.2.2.2.2.2.1, hmono.2.2.2.2.2.2.2, ?_⟩
      have hp := (publishEvent_scalars
        { st with cmdsProcessed := st.cmdsProcessed + 1 } c).2.2.1
      exact hp ▸ le_of_lt (lt_add_one st.cmdsProcessed)
    | cmdClosed =>
      exact cumulMonotone_of_fields st _ rfl rfl rfl rfl rfl rfl rfl rfl rfl
    | lineArrive l =>
      dsimp only
      by_cases hh : st.historical = true
      · rw [if_pos hh]
        obtain ⟨b, t, hb⟩ := hur_shape { st with linesRead := st.linesRead + 1 } l
        rw [hb]
        exact cumulMonotone_of_fields st _ rfl rfl rfl rfl rfl rfl rfl rfl rfl
      · rw [if_neg hh]
        exact cumulMonotone_of_fields st _ rfl rfl rfl rfl rfl rfl rfl rfl rfl
    | linesClosed =>
      by_cases hf : st.fpOpen = true
      · simp only [if_pos hf]
        exact cumulMonotone_of_fields st _ rfl rfl rfl rfl rfl rfl rfl rfl rfl
      · simp only [if_neg hf]
        exact cumulMonotone_of_fields st _ rfl rfl rfl rfl rfl rfl rfl rfl rfl
  · intro hh
    rw [step.eq_def, if_neg (by simp [hterm])]
    cases ev with
    | ctxDone =>
      exact countersMonotone_of_fields st _ rfl rfl rfl rfl rfl rfl rfl rfl rfl
        rfl rfl rfl rfl rfl rfl rfl rfl rfl
    | tick =>
      simp only [if_neg (show ¬ st.historical = false by simp [hh])]
      exact countersMonotone_of_fields st _ rfl rfl rfl rfl rfl rfl rfl rfl rfl
        rfl rfl rfl rfl rfl rfl rfl rfl rfl
    | cmdArrive c =>
      exact publishEvent_counters_mono
        { st with cmdsProcessed := st.cmdsProcessed + 1 } c hnn
    | cmdClosed =>
      exact countersMonotone_of_fields st _ rfl rfl rfl rfl rfl rfl rfl rfl rfl
        rfl rfl rfl rfl rfl rfl rfl rfl rfl
    | lineArrive l =>
      dsimp only
      rw [if_pos hh]
      obtain ⟨b, t, hb⟩ := hur_shape { st with linesRead := st.linesRead + 1 } l
      rw [hb]
      exact ⟨mapLe_refl _, mapLe_refl _, mapLe_refl _, mapLe_refl _,
        mapLe_refl _, mapLe_refl _, fun u => mapLe_refl _,
        le_of_lt (lt_add_one st.linesRead), le_refl _, le_refl _, le_refl _,
        le_refl _, le_refl _, mapLe_refl _, mapLe_refl _, mapLe_refl _,
        mapLe_refl _, mapLe_refl _⟩
    | linesClosed =>
      by_cases hf : st.fpOpen = true
      · simp only [if_pos hf]
        exact countersMonotone_of_fields st _ rfl rfl rfl rfl rfl rfl rfl rfl
          rfl rfl rfl rfl rfl rfl rfl rfl rfl rfl
      · simp only [if_neg hf]
        exact countersMonotone_of_fields st _ rfl rfl rfl rfl rfl rfl rfl rfl
          rfl rfl rfl rfl rfl rfl rfl rfl rfl rfl

theorem hasKey_mset_iff {α : Type} (m : List (String × α)) (k u : String) (v : α) :
    hasKey (mset m k v) u = true ↔ u = k ∨ hasKey m u = true := by
  rw [hasKey_iff_mem_keys, mem_keysOf_mset, hasKey_iff_mem_keys]

theorem detC_hasKey {α : Type} (m : List (String × List (String × α)))
    (user u : String) :
    hasKey (if hasKey m user then m else mset m user []) u = true ↔
      u = user ∨ hasKey m u = true := by
  split
  next h =>
    constructor
    · exact Or.inr
    · rintro (rfl | hh)
      · exact h
      · exact hh
  next h => rw [hasKey_mset_iff]

theorem detQ_hasKey {α : Type} (dc : List (String × List (String × ℤ)))
    (m : List (String × List (String × α))) (user u : String)
    (hal : hasKey dc user = true → hasKey m user = true) :
    hasKey (if hasKey dc user then m else mset m user []) u = true ↔
      u = user ∨ hasKey m u = true := by
  split
  next hdc =>
    constructor
    · exact Or.inr
    · rintro (rfl | hh)
      · exact hal hdc
      · exact hh
  next hdc => rw [hasKey_mset_iff]

theorem publishEvent_detailAligned (st : P4DMetrics) (c : Command)
    (h : detailKeysAligned st) : detailKeysAligned (publishEvent st c) := by
  intro u
  rw [publishEvent_detailCounter, publishEvent_detailCumulative]
  split
  · rw [hasKey_mset_iff, hasKey_mset_iff, detC_hasKey,
      detQ_hasKey _ _ _ _ (fun hd => (h _).mp hd)]
    constructor
    · rintro (rfl | (rfl | hh))
      · exact Or.inl rfl
      · exact Or.inl rfl
      · exact Or.inr (Or.inr ((h u).mp hh))
    · rintro (rfl | (rfl | hh))
      · exact Or.inl rfl
      · exact Or.inl rfl
      · exact Or.inr (Or.inr ((h u).mpr hh))
  · exact h u

theorem hasKey_zeroAllNested {α : Type} [Zero α]
    (m : List (String × List (String × α))) (u : String) :
    hasKey (m.map (fun p => (p.1, zeroMap p.2))) u = hasKey m u := by
  induction m with
  | nil => rfl
  | cons p ps ih => simp [hasKey, List.any_cons] at *; rw [ih]

theorem resetToZero_detailAligned (st : P4DMetrics)
    (h : detailKeysAligned st) : detailKeysAligned (resetToZero st) := by
  intro u
  show hasKey (st.cmdByUserDetailCounter.map (fun p => (p.1, zeroMap p.2))) u =
      true ↔ hasKey st.cmdByUserDetailCumulative u = true
  rw [hasKey_zeroAllNested]
  exact h u

theorem detailKeysAligned_congr (s s' : P4DMetrics)
    (h1 : s'.cmdByUserDetailCounter = s.cmdByUserDetailCounter)
    (h2 : s'.cmdByUserDetailCumulative = s.cmdByUserDetailCumulative)
    (h : detailKeysAligned s) : detailKeysAligned s' := by
  intro u
  rw [h1, h2]
  exact h u

theorem step_detailAligned (st : P4DMetrics) (ev : Event)
    (h : detailKeysAligned st) : detailKeysAligned (step st ev).1 := by
  rw [step.eq_def]
  split
  · exact h
  cases ev with
  | ctxDone => exact h
  | tick =>
    by_cases hh : st.historical = false
    · simp only [if_pos hh]
      exact resetToZero_detailAligned st h
    · simp only [if_neg hh]
      exact h
  | cmdArrive c => exact publishEvent_detailAligned _ c h
  | cmdClosed => exact h
  | lineArrive l =>
    dsimp only
    by_cases hh : st.historical = true
    · rw [if_pos hh]
      obtain ⟨b, t, hb⟩ := hur_shape { st with linesRead := st.linesRead + 1 } l
      rw [hb]
      exact h
    · rw [if_neg hh]
      exact h
  | linesClosed =>
    by_cases hf : st.fpOpen = true
    · simp only [if_pos hf]
      exact h
    · simp only [if_neg hf]
      exact h

theorem run_detailAligned (evs : List Event) (st : P4DMetrics)
    (h : detailKeysAligned st) : detailKeysAligned (run st evs).1 := by
  induction evs generalizing st with
  | nil => exact h
  | cons e es ih => exact ih _ (step_detailAligned st e h)

/-- C1 witness: at the fresh live-mode example state, a tick zeroes the
counters, and a nonnegative command record moves every aggregate
monotonically. -/
theorem claimC1_witness :
    countersZero (step exSt Event.tick).1 ∧
    cumulMonotone exSt (step exSt (Event.cmdArrive exCmdRelay)).1 :=
  have h := claimC1_resetClassification exSt (Event.cmdArrive exCmdRelay)
    (by refine ⟨fun k => ?_, fun k => ?_, fun k => ?_⟩ <;>
      simp [exSt, newP4DMetrics, keysOf])
    (by intro u; constructor <;> (intro h; simp [exSt, newP4DMetrics, hasKey] at h))
    (by decide)
    (by refine ⟨by norm_num [exCmdRelay], by norm_num [exCmdRelay],
      by norm_num [exCmdRelay], by norm_num [exCmdRelay],
      by norm_num [exCmdRelay], by norm_num [exCmdRelay],
      by norm_num [exCmdRelay], by norm_num [exCmdRelay], ?_⟩
        intro t ht
        simp [exCmdRelay] at ht)
  ⟨h.1 (by decide), h.2.1⟩

end GoMetrics
